import Mathlib

/-!
# Verification of the ZenML pipeline compiler (`zenml/config/compiler.py`)

A shallow embedding of the pipeline compiler: the data model (pipelines,
step invocations, stacks, run configurations, specs, deployments), the
compilation functions of the `Compiler` class, and theorems about the
claims of the specification.

Python dictionaries are embedded as insertion-ordered association lists,
Python sets as lists (iteration order fixed per process), and exceptions
as an `Except` error type whose constructors mirror the exception classes
raised by the source, carrying the data interpolated into their messages.

Code of the repository that is imported by `compiler.py` but whose source
is not available (the topological layering of `zenml.orchestrators.topsort`,
the `SettingsResolver`, the `configure`/`finalize` methods of pipelines,
steps and invocations, and the environment snapshot) is modelled from the
specification; those definitions say so in their doc comments.
-/

set_option maxHeartbeats 1000000

namespace ZenML

/-- A resolvable reference to a code location (`zenml.config.source.Source`),
kept abstract: only its identity matters to the compiler. -/
structure Source where
  import_path : String
deriving DecidableEq, Repr

/-- The configuration levels at which settings may appear
(`zenml.config.base_settings.ConfigurationLevel`). -/
inductive ConfigurationLevel where
  | PIPELINE
  | STEP
deriving DecidableEq, Repr

/-- A settings object (`zenml.config.base_settings.BaseSettings`): a capability
set `LEVEL` naming the configuration levels the settings class supports, and
the settings content as a field map. -/
structure BaseSettings where
  LEVEL : List ConfigurationLevel
  fields : List (String × String)
deriving DecidableEq, Repr

/-- A step configuration (`zenml.config.step_configurations`): the boolean
enablement flags, settings, extras, hook sources and infrastructure
requirements of a step. -/
structure StepConfiguration where
  enable_cache : Option Bool
  enable_artifact_metadata : Option Bool
  enable_artifact_visualization : Option Bool
  settings : List (String × BaseSettings)
  extra : List (String × String)
  failure_hook_source : Option Source
  success_hook_source : Option Source
  step_operator : Option String
  experiment_tracker : Option String
deriving DecidableEq, Repr

/-- An input artifact of a step invocation: the producing invocation id and
the producing step's output name. -/
structure InputArtifact where
  invocation_id : String
  output_name : String
deriving DecidableEq, Repr

/-- A step definition (`BaseStep`): its resolvable source and its
configuration. `step.resolve()` returns `source`. -/
structure StepDef where
  source : Source
  configuration : StepConfiguration
deriving DecidableEq, Repr

/-- A step invocation (`zenml.steps.step_invocation.StepInvocation`): the node
of the pipeline DAG. `upstream_steps` is a Python set, embedded as a list with
the process-stable iteration order. -/
structure StepInvocation where
  id : String
  step : StepDef
  upstream_steps : List String
  input_artifacts : List (String × InputArtifact)
deriving DecidableEq, Repr

/-- The pipeline-level configuration (`PipelineConfiguration`). -/
structure PipelineConfiguration where
  enable_cache : Option Bool
  enable_artifact_metadata : Option Bool
  enable_artifact_visualization : Option Bool
  settings : List (String × BaseSettings)
  extra : List (String × String)
  failure_hook_source : Option Source
  success_hook_source : Option Source
deriving DecidableEq, Repr

/-- A pipeline definition (`zenml.new.pipelines.pipeline.Pipeline`, or the
legacy `BasePipeline` when `is_legacy` is set): a name, the insertion-ordered
invocation mapping, the pipeline configuration, the resolvable source,
declared parameters, and the legacy-authoring-style marker used by
`_compute_pipeline_spec`. -/
structure Pipeline where
  name : String
  invocations : List (String × StepInvocation)
  configuration : PipelineConfiguration
  source : Source
  parameters : List (String × String)
  is_legacy : Bool
deriving DecidableEq, Repr

/-- A stack component (`zenml.stack.StackComponent`): its name, its settings
key (`settings_utils.get_stack_component_setting_key`), whether it has a
settings class, and — modelled from the spec — the default settings derived
from its configured properties (`Compiler._get_default_settings`). -/
structure StackComponent where
  name : String
  settings_key : String
  has_settings_class : Bool
  default_settings : BaseSettings
deriving DecidableEq, Repr

/-- A stack (`zenml.stack.Stack`): read-only input to compilation.
`resolvable_keys` is modelled from the spec: the set of settings keys the
`SettingsResolver` can resolve against this stack's components. -/
structure Stack where
  name : String
  components : List (String × StackComponent)
  step_operator : Option StackComponent
  experiment_tracker : Option StackComponent
  resolvable_keys : List String
deriving DecidableEq, Repr

/-- A run-level step configuration update
(`zenml.config.step_configurations.StepConfigurationUpdate`). -/
structure StepConfigurationUpdate where
  enable_cache : Option Bool
  enable_artifact_metadata : Option Bool
  enable_artifact_visualization : Option Bool
  settings : List (String × BaseSettings)
  extra : List (String × String)
  failure_hook_source : Option Source
  success_hook_source : Option Source
  step_operator : Option String
  experiment_tracker : Option String
deriving DecidableEq, Repr

/-- A run configuration
(`zenml.config.pipeline_run_configuration.PipelineRunConfiguration`). -/
structure PipelineRunConfiguration where
  run_name : Option String
  enable_cache : Option Bool
  enable_artifact_metadata : Option Bool
  enable_artifact_visualization : Option Bool
  steps : List (String × StepConfigurationUpdate)
  settings : List (String × BaseSettings)
  extra : List (String × String)
deriving DecidableEq, Repr

/-- An input spec (`zenml.config.step_configurations.InputSpec`). -/
structure InputSpec where
  step_name : String
  output_name : String
deriving DecidableEq, Repr

/-- A step spec (`zenml.config.step_configurations.StepSpec`): the unit of
content-addressable identity of a compiled step. -/
structure StepSpec where
  source : Source
  upstream_steps : List String
  inputs : List (String × InputSpec)
  pipeline_parameter_name : String
deriving DecidableEq, Repr

/-- A compiled step (`zenml.config.step_configurations.Step`). -/
structure Step where
  spec : StepSpec
  config : StepConfiguration
deriving DecidableEq, Repr

/-- A pipeline deployment
(`zenml.models.pipeline_deployment_models.PipelineDeploymentBaseModel`). -/
structure PipelineDeployment where
  run_name_template : String
  pipeline_configuration : PipelineConfiguration
  step_configurations : List (String × Step)
  client_environment : List (String × String)
deriving DecidableEq, Repr

/-- A pipeline spec (`zenml.config.pipeline_spec.PipelineSpec`). Modelled from
the spec for the parts outside `compiler.py`: the version tag defaults to the
current version and is set to the legacy tag `0.3` for legacy pipelines, in
which case source and parameters stay unset. -/
structure PipelineSpec where
  version : String
  source : Option Source
  parameters : Option (List (String × String))
  steps : List StepSpec
deriving DecidableEq, Repr

/-- The errors raised by compilation.  Each constructor mirrors one exception
class raised by the source and carries the data interpolated into the
exception's message:

* `keyError`: `KeyError(f"No step with name {step_name}.")` from
  `_apply_run_configuration`;
* `runtimeError`: `RuntimeError(f"Invalid upstream steps: ... Available ...")`
  from `_verify_upstream_steps`;
* `cycleError`: the structural error surfaced by the topological layering on
  unprocessable residual nodes (modelled from the spec, the layering source
  being outside `compiler.py`);
* `valueError`: `ValueError` from `_verify_run_name` (either the invalid
  placeholder message, or the parse failure of `string.Formatter().parse`
  propagating through it);
* `typeError`: `TypeError(f"The settings class ... can not be specified on a
  ... level.")` from `_filter_and_validate_settings`;
* `stackValidationError`: `StackValidationError` from
  `_ensure_required_stack_components_exist`. -/
inductive Err where
  | keyError (step_name : String)
  | runtimeError (invalid_upstream_steps : List String) (available_steps : List String)
  | cycleError (remaining_nodes : List String)
  | valueError (run_name : String)
  | typeError (settings : BaseSettings) (level : ConfigurationLevel)
  | stackValidationError (step_name : String) (requirement : String) (available : List String)
deriving DecidableEq, Repr

/-- The three fatal-error categories of the error taxonomy (§7 of the spec):
structural/graph errors, configuration-shape errors, and
infrastructure-requirement errors. -/
inductive ErrCategory where
  | graph
  | configurationShape
  | infrastructure
deriving DecidableEq, Repr

/-- The category of each error, determined by its type alone. -/
def Err.category : Err → ErrCategory
  | .keyError _ => .configurationShape
  | .runtimeError _ _ => .graph
  | .cycleError _ => .graph
  | .valueError _ => .configurationShape
  | .typeError _ _ => .configurationShape
  | .stackValidationError _ _ _ => .infrastructure

/-! ## Association-list operations

Python dictionaries preserve insertion order; `dict.update`-style merges keep
the position of existing keys and append new keys at the end. -/

/-- Look up a key in an association list (Python `d.get(k)` / `d[k]`). -/
def assocFind (l : List (String × α)) (k : String) : Option α :=
  (l.find? (fun kv => kv.1 = k)).map (fun kv => kv.2)

/-- Merge `upd` into `base`: keys present in both are combined with `merge`
(left operand from `base`, right from `upd`), keys only in `upd` are appended
in order.  With `merge := fun _ v => v` this is Python `dict.update`. -/
def assocUpdateWith (merge : α → α → α) (base upd : List (String × α)) :
    List (String × α) :=
  base.map (fun kv =>
    match assocFind upd kv.1 with
    | some v => (kv.1, merge kv.2 v)
    | none => kv)
  ++ upd.filter (fun kv => (assocFind base kv.1).isNone)

/-- Python `dict.update`: values from `upd` replace values in `base`. -/
def assocUpdate (base upd : List (String × α)) : List (String × α) :=
  assocUpdateWith (fun _ v => v) base upd

/-- Insert a string into a sorted list of strings, preserving order. -/
def sortedInsert (s : String) : List String → List String
  | [] => [s]
  | x :: xs => if s ≤ x then s :: x :: xs else x :: sortedInsert s xs

/-- Python `sorted` on a collection of strings (insertion sort). -/
def sortStrings : List String → List String
  | [] => []
  | x :: xs => sortedInsert x (sortStrings xs)

/-! ## Settings merging and `configure` semantics

`pydantic_utils.update_model` and the `configure` methods of pipelines and
steps live outside `compiler.py`; they are modelled from the spec (§4.3):
`configure` updates only the fields that are explicitly passed, a **replace**
merge substitutes incoming values wholesale, and a **combine** merge
deep-merges field-by-field with the right-hand operand winning. -/

/-- Modelled from the spec: `pydantic_utils.update_model` — a combine merge of
two settings objects: fields set on `upd` win field-by-field, fields unset on
`upd` retain the value from `base`. -/
def update_model (base upd : BaseSettings) : BaseSettings :=
  { LEVEL := base.LEVEL, fields := assocUpdate base.fields upd.fields }

/-- Modelled from the spec: a combine merge of two settings mappings — shared
keys are merged with `update_model`, keys only in `upd` are appended. -/
def combineSettings (base upd : List (String × BaseSettings)) :
    List (String × BaseSettings) :=
  assocUpdateWith update_model base upd

/-- Modelled from the spec: `BaseStep.configure(enable_cache=b)` — sets the
step's cache flag (run-level boolean override, replace semantics). -/
def StepConfiguration.withEnableCache (c : StepConfiguration) (b : Bool) :
    StepConfiguration :=
  { c with enable_cache := some b }

/-- Modelled from the spec: `BaseStep.configure(enable_artifact_metadata=b)`. -/
def StepConfiguration.withEnableArtifactMetadata (c : StepConfiguration)
    (b : Bool) : StepConfiguration :=
  { c with enable_artifact_metadata := some b }

/-- Modelled from the spec:
`BaseStep.configure(enable_artifact_visualization=b)`. -/
def StepConfiguration.withEnableArtifactVisualization (c : StepConfiguration)
    (b : Bool) : StepConfiguration :=
  { c with enable_artifact_visualization := some b }

/-- Modelled from the spec: `BaseStep._apply_configuration(update)` with
replace semantics (§4.3a): every field explicitly set on the update replaces
the step's value; settings and extra entries replace per key. -/
def StepConfiguration.applyUpdate (c : StepConfiguration)
    (u : StepConfigurationUpdate) : StepConfiguration where
  enable_cache := match u.enable_cache with
    | some b => some b
    | none => c.enable_cache
  enable_artifact_metadata := match u.enable_artifact_metadata with
    | some b => some b
    | none => c.enable_artifact_metadata
  enable_artifact_visualization := match u.enable_artifact_visualization with
    | some b => some b
    | none => c.enable_artifact_visualization
  settings := assocUpdate c.settings u.settings
  extra := assocUpdate c.extra u.extra
  failure_hook_source := match u.failure_hook_source with
    | some s => some s
    | none => c.failure_hook_source
  success_hook_source := match u.success_hook_source with
    | some s => some s
    | none => c.success_hook_source
  step_operator := match u.step_operator with
    | some s => some s
    | none => c.step_operator
  experiment_tracker := match u.experiment_tracker with
    | some s => some s
    | none => c.experiment_tracker

/-- Modelled from the spec: `Pipeline.configure(...)` as called by
`_apply_run_configuration` — boolean flags are set when explicitly passed,
settings and extra are merged (default `merge=True`, combine semantics). -/
def PipelineConfiguration.applyRunLevel (c : PipelineConfiguration)
    (cfg : PipelineRunConfiguration) : PipelineConfiguration where
  enable_cache := match cfg.enable_cache with
    | some b => some b
    | none => c.enable_cache
  enable_artifact_metadata := match cfg.enable_artifact_metadata with
    | some b => some b
    | none => c.enable_artifact_metadata
  enable_artifact_visualization := match cfg.enable_artifact_visualization with
    | some b => some b
    | none => c.enable_artifact_visualization
  settings := combineSettings c.settings cfg.settings
  extra := assocUpdate c.extra cfg.extra
  failure_hook_source := c.failure_hook_source
  success_hook_source := c.success_hook_source

/-- Modelled from the spec: `Pipeline.configure(settings=s, merge=False)` —
replaces the pipeline's settings mapping wholesale. -/
def Pipeline.withSettings (p : Pipeline)
    (s : List (String × BaseSettings)) : Pipeline :=
  { p with configuration := { p.configuration with settings := s } }

/-- Apply a function to the configuration of the step of every invocation of
a pipeline (the `for invocation in pipeline.invocations.values()` loops of
`_apply_run_configuration`). -/
def Pipeline.mapStepConfigurations (p : Pipeline)
    (f : StepConfiguration → StepConfiguration) : Pipeline :=
  { p with
    invocations := p.invocations.map (fun nv =>
      (nv.1,
       { nv.2 with
         step := { nv.2.step with configuration := f nv.2.step.configuration } })) }

/-! ## Topological layering

`Compiler._get_sorted_invocations` delegates to `topsorted_layers` from
`zenml.orchestrators.topsort`, whose source is not available; the layering is
modelled from the spec (§4.1): produce layers where every node appears once,
each node is placed in the earliest layer strictly after all its parents,
ties within a layer broken by insertion order of node identifiers, and
unprocessable residual nodes after layering terminates are a fatal
structural error. -/

/-- The parent (upstream) identifiers of a node in a DAG given as an
association list from node id to parent list. -/
def parentsOf (dag : List (String × List String)) (n : String) : List String :=
  (assocFind dag n).getD []

/-- A node is ready when all of its parents have already been emitted. -/
def readyPred (dag : List (String × List String)) (emitted : List String)
    (n : String) : Bool :=
  decide (∀ p ∈ parentsOf dag n, p ∈ emitted)

/-- Modelled from the spec: one round of layering picks every remaining node
all of whose parents have already been emitted, in insertion order. -/
def readyNodes (dag : List (String × List String)) (emitted remaining : List String) :
    List String :=
  remaining.filter (readyPred dag emitted)

/-- Modelled from the spec: the layering loop.  `fuel` bounds the number of
rounds (each productive round removes at least one node, so the number of
nodes suffices); if a round makes no progress while nodes remain, the
residual nodes are unprocessable and a structural error is raised. -/
def layersLoop (dag : List (String × List String)) :
    Nat → List String → List String → Except Err (List (List String))
  | 0, _, remaining =>
      if remaining.isEmpty then .ok [] else .error (.cycleError remaining)
  | fuel + 1, emitted, remaining =>
      let ready := readyNodes dag emitted remaining
      if ready.isEmpty then
        if remaining.isEmpty then .ok [] else .error (.cycleError remaining)
      else
        match layersLoop dag fuel (emitted ++ ready)
          (remaining.filter (fun n => ! readyPred dag emitted n)) with
        | .error e => .error e
        | .ok layers => .ok (ready :: layers)

/-- Modelled from the spec: `topsorted_layers` from
`zenml.orchestrators.topsort` — layers the nodes of the DAG, in insertion
order within each layer, failing on unprocessable residual nodes. -/
def topsorted_layers (dag : List (String × List String)) :
    Except Err (List (List String)) :=
  layersLoop dag (dag.length + 1) [] (dag.map (fun kv => kv.1))

/-! ## The Compiler -/

/-- `Compiler._verify_upstream_steps`: raises `RuntimeError` naming the
invalid upstream steps and the available steps when an invocation references
an upstream name that is not an invocation of the pipeline. -/
def verify_upstream_steps (invocation : StepInvocation) (pipeline : Pipeline) :
    Except Err Unit :=
  let available_steps := pipeline.invocations.map (fun kv => kv.1)
  let invalid_upstream_steps :=
    invocation.upstream_steps.filter (fun s => ¬ s ∈ available_steps)
  if invalid_upstream_steps.isEmpty then .ok ()
  else .error (.runtimeError invalid_upstream_steps available_steps)

/-- The DAG-building loop of `_get_sorted_invocations`: verifies the upstream
steps of every invocation and collects `dag[name] = list(step.upstream_steps)`
in insertion order. -/
def buildDag (pipeline : Pipeline) :
    List (String × StepInvocation) → Except Err (List (String × List String))
  | [] => .ok []
  | (name, step) :: rest =>
      match verify_upstream_steps step pipeline with
      | .error e => .error e
      | .ok _ =>
          match buildDag pipeline rest with
          | .error e => .error e
          | .ok restDag => .ok ((name, step.upstream_steps) :: restDag)

/-- `Compiler._get_sorted_invocations`: topologically sorts the step
invocations of a pipeline into a flattened list of `(name, invocation)`
pairs. -/
def get_sorted_invocations (pipeline : Pipeline) :
    Except Err (List (String × StepInvocation)) :=
  match buildDag pipeline pipeline.invocations with
  | .error e => .error e
  | .ok dag =>
      match topsorted_layers dag with
      | .error e => .error e
      | .ok layers =>
          .ok ((layers.flatten).filterMap (fun n =>
            (assocFind pipeline.invocations n).map (fun inv => (n, inv))))

/-! ## Run-name verification

`_verify_run_name` extracts the placeholder names of the run name with
CPython's `string.Formatter().parse`, which the following functions embed:
literal `{{` and `}}` are escapes, a field is `{name!conv:spec}` with the
conversion a single character and the format spec scanned to the matching
brace (braces nest inside a spec), a lone `}` or an unterminated field is a
`ValueError`. -/

/-- Skip a format spec: consume characters until the brace matching the field
opener, tracking nested braces.  Returns the rest of the input, or an error
at end of input (CPython: unmatched brace in format spec). -/
def skipFormatSpec : Nat → List Char → Except Unit (List Char)
  | _, [] => .error ()
  | 0, _ => .error ()
  | depth + 1, c :: rest =>
      if c = '{' then skipFormatSpec (depth + 2) rest
      else if c = '}' then
        if depth = 0 then .ok rest else skipFormatSpec depth rest
      else skipFormatSpec (depth + 1) rest

/-- Parse one replacement field after its opening brace: accumulate the field
name until `}`, `!` or `:`; after `!` exactly one conversion character must be
followed by `:` or `}`.  Returns the field name and the rest of the input. -/
def takeFieldName (acc : List Char) : List Char → Except Unit (String × List Char)
  | [] => .error ()
  | c :: rest =>
      if c = '}' then .ok (String.mk acc.reverse, rest)
      else if c = ':' then
        match skipFormatSpec 1 rest with
        | .error e => .error e
        | .ok rest' => .ok (String.mk acc.reverse, rest')
      else if c = '!' then
        match rest with
        | _ :: '}' :: rest' => .ok (String.mk acc.reverse, rest')
        | _ :: ':' :: rest' =>
            match skipFormatSpec 1 rest' with
            | .error e => .error e
            | .ok rest'' => .ok (String.mk acc.reverse, rest'')
        | _ => .error ()
      else takeFieldName (c :: acc) rest

/-- Scan a format string for its replacement-field names
(`string.Formatter().parse`, keeping only the field-name components).
`fuel` bounds the number of scanned chunks; every chunk consumes at least one
character, so the length of the input suffices. -/
def scanFormat : Nat → List Char → Except Unit (List String)
  | _, [] => .ok []
  | 0, _ => .error ()
  | fuel + 1, c :: rest =>
      if c = '{' then
        match rest with
        | '{' :: rest' => scanFormat fuel rest'
        | _ =>
            match takeFieldName [] rest with
            | .error e => .error e
            | .ok (name, rest') =>
                match scanFormat fuel rest' with
                | .error e => .error e
                | .ok names => .ok (name :: names)
      else if c = '}' then
        match rest with
        | '}' :: rest' => scanFormat fuel rest'
        | _ => .error ()
      else scanFormat fuel rest

/-- The field names of a format string, or an error if it is malformed. -/
def formatFieldNames (s : String) : Except Unit (List String) :=
  scanFormat (s.data.length + 1) s.data

/-- `Compiler._verify_run_name`: collects the non-empty placeholder names of
the run name (the set comprehension `{v[1] for v in parse(run_name) if v[1]}`)
and raises `ValueError` unless they form a subset of `{date, time}`; a parse
failure of `string.Formatter().parse` propagates as a `ValueError` as well. -/
def verify_run_name (run_name : String) : Except Err Unit :=
  match formatFieldNames run_name with
  | .error _ => .error (.valueError run_name)
  | .ok names =>
      let placeholders := names.filter (fun n => ¬ n = "")
      if placeholders.all (fun p => p = "date" ∨ p = "time") then .ok ()
      else .error (.valueError run_name)

/-- `Compiler._get_default_run_name`:
`f"{pipeline_name}-{{date}}-{{time}}"`. -/
def get_default_run_name (pipeline_name : String) : String :=
  pipeline_name ++ "-\x7bdate\x7d-\x7btime\x7d"

/-! ## Settings filtering and validation -/

/-- Modelled from the spec: `SettingsResolver(key, settings).resolve(stack)` —
resolves the settings key against the components of the stack, returning the
settings instance unmodified, or raising `KeyError` when the key cannot be
resolved against any current stack component. -/
def settingsResolverResolve (stack : Stack) (key : String)
    (settings : BaseSettings) : Option BaseSettings :=
  if key ∈ stack.resolvable_keys then some settings else none

/-- `Compiler._filter_and_validate_settings`: iterates the settings mapping in
order; an entry whose key the resolver cannot resolve is dropped with a logged
notice, a resolved entry whose settings class does not support the
configuration level raises `TypeError`, and every other entry is kept. -/
def filter_and_validate_settings (settings : List (String × BaseSettings))
    (configuration_level : ConfigurationLevel) (stack : Stack) :
    Except Err (List (String × BaseSettings)) :=
  match settings with
  | [] => .ok []
  | (key, settings_instance) :: rest =>
      match settingsResolverResolve stack key settings_instance with
      | none => filter_and_validate_settings rest configuration_level stack
      | some resolved =>
          if configuration_level ∈ resolved.LEVEL then
            match filter_and_validate_settings rest configuration_level stack with
            | .error e => .error e
            | .ok validated => .ok ((key, resolved) :: validated)
          else .error (.typeError resolved configuration_level)

/-! ## Step specs and step compilation -/

/-- `Compiler._get_step_spec`: the spec of a step invocation — the step's
source, the **sorted** upstream step names, the resolved input mapping and
the invocation id. -/
def get_step_spec (invocation : StepInvocation) : StepSpec where
  source := invocation.step.source
  upstream_steps := sortStrings invocation.upstream_steps
  inputs := invocation.input_artifacts.map (fun kv =>
    (kv.1, { step_name := kv.2.invocation_id, output_name := kv.2.output_name }))
  pipeline_parameter_name := invocation.id

/-- Modelled from the spec: `StepInvocation.finalize()` — returns the fully
merged configuration of the invocation's step. -/
def StepInvocation.finalize (invocation : StepInvocation) : StepConfiguration :=
  invocation.step.configuration

/-- `Compiler._compile_step_invocation`: deep-copies the invocation (value
semantics in this embedding), computes its spec, validates its step-level
settings, then configures the step with the pipeline's pass-down
settings/extra/hooks via replace and merges the step's own
settings/extra/hooks back on top via combine (§4.3d). -/
def compile_step_invocation (invocation : StepInvocation)
    (pipeline_settings : List (String × BaseSettings))
    (pipeline_extra : List (String × String)) (stack : Stack)
    (pipeline_failure_hook_source : Option Source)
    (pipeline_success_hook_source : Option Source) : Except Err Step :=
  let step := invocation.step
  let step_spec := get_step_spec invocation
  match filter_and_validate_settings step.configuration.settings
      ConfigurationLevel.STEP stack with
  | .error e => .error e
  | .ok step_settings =>
      let step_extra := step.configuration.extra
      let step_on_failure_hook_source := step.configuration.failure_hook_source
      let step_on_success_hook_source := step.configuration.success_hook_source
      let config1 : StepConfiguration :=
        { step.configuration with
          settings := pipeline_settings
          extra := pipeline_extra
          failure_hook_source := match pipeline_failure_hook_source with
            | some s => some s
            | none => step.configuration.failure_hook_source
          success_hook_source := match pipeline_success_hook_source with
            | some s => some s
            | none => step.configuration.success_hook_source }
      let config2 : StepConfiguration :=
        { config1 with
          settings := combineSettings config1.settings step_settings
          extra := assocUpdate config1.extra step_extra
          failure_hook_source := match step_on_failure_hook_source with
            | some s => some s
            | none => config1.failure_hook_source
          success_hook_source := match step_on_success_hook_source with
            | some s => some s
            | none => config1.success_hook_source }
      let finalized := StepInvocation.finalize
        { invocation with step := { step with configuration := config2 } }
      .ok { spec := step_spec, config := finalized }

/-! ## Run configuration and stack defaults -/

/-- The per-step update loop of `_apply_run_configuration`: raises `KeyError`
for a step name absent from the pipeline's invocations, otherwise applies the
update to that step with replace semantics. -/
def applyStepUpdates (pipeline : Pipeline) :
    List (String × StepConfigurationUpdate) → Except Err Pipeline
  | [] => .ok pipeline
  | (step_name, step_config) :: rest =>
      if (assocFind pipeline.invocations step_name).isSome then
        applyStepUpdates
          { pipeline with
            invocations := pipeline.invocations.map (fun nv =>
              if nv.1 = step_name then
                (nv.1,
                 { nv.2 with
                   step := { nv.2.step with
                     configuration :=
                       nv.2.step.configuration.applyUpdate step_config } })
              else nv) }
          rest
      else .error (.keyError step_name)

/-- `Compiler._apply_run_configuration`: applies the run configuration to the
pipeline, applies per-step updates (raising `KeyError` for a nonexistent step
name), then forces any run-level `enable_cache` / `enable_artifact_metadata` /
`enable_artifact_visualization` value onto every step. -/
def apply_run_configuration (pipeline : Pipeline)
    (config : PipelineRunConfiguration) : Except Err Pipeline :=
  let pipeline :=
    { pipeline with
      configuration := pipeline.configuration.applyRunLevel config }
  match applyStepUpdates pipeline config.steps with
  | .error e => .error e
  | .ok pipeline =>
      let pipeline := match config.enable_cache with
        | some b => pipeline.mapStepConfigurations (fun c => c.withEnableCache b)
        | none => pipeline
      let pipeline := match config.enable_artifact_metadata with
        | some b => pipeline.mapStepConfigurations
            (fun c => c.withEnableArtifactMetadata b)
        | none => pipeline
      let pipeline := match config.enable_artifact_visualization with
        | some b => pipeline.mapStepConfigurations
            (fun c => c.withEnableArtifactVisualization b)
        | none => pipeline
      .ok pipeline

/-- The per-component loop of `_apply_stack_default_settings`: for every stack
component with a settings class, merge its default settings under the
component's settings key — pipeline-authored settings win field-by-field over
the stack defaults. -/
def applyComponentDefaults (settings : List (String × BaseSettings)) :
    List (String × StackComponent) → List (String × BaseSettings)
  | [] => settings
  | (_, component) :: rest =>
      if component.has_settings_class then
        let settings_key := component.settings_key
        let default_settings := component.default_settings
        let newSettings := match assocFind settings settings_key with
          | some existing =>
              assocUpdate settings
                [(settings_key, update_model default_settings existing)]
          | none => settings ++ [(settings_key, default_settings)]
        applyComponentDefaults newSettings rest
      else applyComponentDefaults settings rest

/-- `Compiler._apply_stack_default_settings`. -/
def apply_stack_default_settings (pipeline : Pipeline) (stack : Stack) :
    Pipeline :=
  pipeline.withSettings
    (applyComponentDefaults pipeline.configuration.settings stack.components)

/-! ## Stack requirement validation and pipeline specs -/

/-- `Compiler._ensure_required_stack_components_exist`: for every compiled
step requiring a step operator or experiment tracker by name, check the stack
has a matching component, raising `StackValidationError` naming the step, the
requirement and what is available. -/
def ensure_required_stack_components_exist (stack : Stack) :
    List (String × Step) → Except Err Unit
  | [] => .ok ()
  | (name, step) :: rest =>
      let available_step_operators := match stack.step_operator with
        | some c => [c.name]
        | none => []
      let available_experiment_trackers := match stack.experiment_tracker with
        | some c => [c.name]
        | none => []
      match step.config.step_operator with
      | some so =>
          if so ∈ available_step_operators then
            match step.config.experiment_tracker with
            | some et =>
                if et ∈ available_experiment_trackers then
                  ensure_required_stack_components_exist stack rest
                else .error (.stackValidationError name et
                  available_experiment_trackers)
            | none => ensure_required_stack_components_exist stack rest
          else .error (.stackValidationError name so available_step_operators)
      | none =>
          match step.config.experiment_tracker with
          | some et =>
              if et ∈ available_experiment_trackers then
                ensure_required_stack_components_exist stack rest
              else .error (.stackValidationError name et
                available_experiment_trackers)
          | none => ensure_required_stack_components_exist stack rest

/-- `Compiler._compute_pipeline_spec`: legacy pipelines get the legacy version
tag `0.3`; current pipelines get the default version tag with their source and
parameters (the pipeline-spec model itself is outside `compiler.py`; its
version tags are modelled from the spec). -/
def compute_pipeline_spec (pipeline : Pipeline) (step_specs : List StepSpec) :
    PipelineSpec :=
  if pipeline.is_legacy then
    { version := "0.3", source := none, parameters := none, steps := step_specs }
  else
    { version := "0.4", source := some pipeline.source,
      parameters := some pipeline.parameters, steps := step_specs }

/-- Modelled from the spec: `get_run_environment_dict` — the external
environment snapshot provider, a fixed descriptive mapping captured at
compile time. -/
def get_run_environment_dict : List (String × String) :=
  [("environment", "python"), ("os", "linux")]

/-! ## The two public entry points -/

/-- The step-compilation loop of `Compiler.compile`. -/
def compileAllSteps (stack : Stack)
    (pipeline_settings : List (String × BaseSettings))
    (pipeline_extra : List (String × String))
    (pipeline_failure_hook_source pipeline_success_hook_source : Option Source) :
    List (String × StepInvocation) → Except Err (List (String × Step))
  | [] => .ok []
  | (name, invocation) :: rest =>
      match compile_step_invocation invocation pipeline_settings pipeline_extra
          stack pipeline_failure_hook_source pipeline_success_hook_source with
      | .error e => .error e
      | .ok step =>
          match compileAllSteps stack pipeline_settings pipeline_extra
              pipeline_failure_hook_source pipeline_success_hook_source rest with
          | .error e => .error e
          | .ok steps => .ok ((name, step) :: steps)

/-- The run-name verification stage of `Compiler.compile`: the run name is
verified only when it is supplied and truthy (`if run_configuration.run_name:`
— `None` and the empty string are both falsy). -/
def runNameStage (config : PipelineRunConfiguration) : Except Err Unit :=
  match config.run_name with
  | some rn => if rn = "" then .ok () else verify_run_name rn
  | none => .ok ()

/-- The run-name template chosen by `Compiler.compile`:
`run_configuration.run_name or self._get_default_run_name(...)` — the default
is used when the run name is `None` or empty. -/
def chooseRunName (config : PipelineRunConfiguration) (pipeline_name : String) :
    String :=
  match config.run_name with
  | some rn => if rn = "" then get_default_run_name pipeline_name else rn
  | none => get_default_run_name pipeline_name

/-- The stages of `Compiler.compile` on the working pipeline after its
settings have been replaced by the validated pipeline settings: settings
pass-down, topological sorting, step compilation, stack requirement
validation, and assembly of the deployment and the pipeline spec. -/
def compileStagesSorted (pipeline : Pipeline) (stack : Stack)
    (run_configuration : PipelineRunConfiguration)
    (pipeline_settings : List (String × BaseSettings)) :
    Except Err (PipelineDeployment × PipelineSpec) :=
  let settings_to_passdown := pipeline_settings.filter
    (fun kv => ConfigurationLevel.STEP ∈ kv.2.LEVEL)
  match get_sorted_invocations pipeline with
  | .error e => .error e
  | .ok sorted =>
      match compileAllSteps stack settings_to_passdown
          pipeline.configuration.extra
          pipeline.configuration.failure_hook_source
          pipeline.configuration.success_hook_source sorted with
      | .error e => .error e
      | .ok steps =>
          match ensure_required_stack_components_exist stack steps with
          | .error e => .error e
          | .ok _ =>
              let run_name := chooseRunName run_configuration pipeline.name
              let deployment : PipelineDeployment :=
                { run_name_template := run_name
                  pipeline_configuration := pipeline.configuration
                  step_configurations := steps
                  client_environment := get_run_environment_dict }
              let step_specs := steps.map (fun kv => kv.2.spec)
              .ok (deployment, compute_pipeline_spec pipeline step_specs)

/-- The stages of `Compiler.compile` after the working pipeline has absorbed
the run configuration and the stack default settings: run-name verification,
pipeline-settings filtering, then the sorted stages. -/
def compileStages (pipeline : Pipeline) (stack : Stack)
    (run_configuration : PipelineRunConfiguration) :
    Except Err (PipelineDeployment × PipelineSpec) :=
  match runNameStage run_configuration with
  | .error e => .error e
  | .ok _ =>
      match filter_and_validate_settings pipeline.configuration.settings
          ConfigurationLevel.PIPELINE stack with
      | .error e => .error e
      | .ok pipeline_settings =>
          compileStagesSorted (pipeline.withSettings pipeline_settings) stack
            run_configuration pipeline_settings

/-- `Compiler.compile`: full compilation.  The deep copy taken by the source
is the identity under the value semantics of this embedding; the heap-level
embedding below makes the copy explicit. -/
def compile (pipeline : Pipeline) (stack : Stack)
    (run_configuration : PipelineRunConfiguration) :
    Except Err (PipelineDeployment × PipelineSpec) :=
  match apply_run_configuration pipeline run_configuration with
  | .error e => .error e
  | .ok pipeline =>
      compileStages (apply_stack_default_settings pipeline stack) stack
        run_configuration

/-- `Compiler.compile_spec`: spec-only compilation — deep-copies the pipeline
and builds the step specs in topologically sorted order, skipping stack
binding and settings resolution entirely. -/
def compile_spec (pipeline : Pipeline) : Except Err PipelineSpec :=
  match get_sorted_invocations pipeline with
  | .error e => .error e
  | .ok sorted =>
      .ok (compute_pipeline_spec pipeline
        (sorted.map (fun kv => get_step_spec kv.2)))

/-! ## Heap-level embedding of the two entry points

In the source, pipelines are mutable heap objects shared with the caller;
`compile` mutates its working pipeline in place (`_apply_run_configuration`,
`_apply_stack_default_settings`, `pipeline.configure(settings=..., merge=False)`)
after first taking a deep copy.  The heap is embedded as a list of pipeline
values indexed by references; `copy.deepcopy` allocates a fresh cell, and
every subsequent write goes to that fresh cell. -/

/-- The heap: pipeline objects indexed by position. -/
abbrev Heap := List Pipeline

/-- An arbitrary pipeline value, used as the out-of-bounds default of heap
reads (a dangling reference cannot occur in the source). -/
def defaultPipeline : Pipeline where
  name := ""
  invocations := []
  configuration :=
    { enable_cache := none, enable_artifact_metadata := none
      enable_artifact_visualization := none, settings := [], extra := []
      failure_hook_source := none, success_hook_source := none }
  source := { import_path := "" }
  parameters := []
  is_legacy := false

/-- Read a heap cell. -/
def Heap.read (h : Heap) (r : Nat) : Pipeline := h.getD r defaultPipeline

/-- `Compiler.compile` at heap level: `r` is the caller's reference.  The
deep copy allocates a fresh cell `w`; the three stages of the source that
mutate the working pipeline each write to `w`, and every later stage only
reads from it. -/
def compileHeap (r : Nat) (stack : Stack)
    (run_configuration : PipelineRunConfiguration) (h : Heap) :
    Except Err (PipelineDeployment × PipelineSpec) × Heap :=
  let w := h.length
  let h1 := h ++ [Heap.read h r]
  match apply_run_configuration (Heap.read h1 w) run_configuration with
  | .error e => (.error e, h1)
  | .ok p1 =>
      let h2 := h1.set w p1
      let h3 := h2.set w (apply_stack_default_settings (Heap.read h2 w) stack)
      match runNameStage run_configuration with
      | .error e => (.error e, h3)
      | .ok _ =>
          match filter_and_validate_settings (Heap.read h3 w).configuration.settings
              ConfigurationLevel.PIPELINE stack with
          | .error e => (.error e, h3)
          | .ok pipeline_settings =>
              let h4 := h3.set w ((Heap.read h3 w).withSettings pipeline_settings)
              (compileStagesSorted (Heap.read h4 w) stack run_configuration
                pipeline_settings, h4)

/-- `Compiler.compile_spec` at heap level: deep-copies the pipeline into a
fresh cell and computes the spec from the copy (no further mutation). -/
def compileSpecHeap (r : Nat) (h : Heap) : Except Err PipelineSpec × Heap :=
  let h1 := h ++ [Heap.read h r]
  (compile_spec (Heap.read h1 h.length), h1)

/-! ## Graph predicates -/

/-- The step-invocation dependency graph of a pipeline: each invocation name
with its upstream (parent) names. -/
def dagOf (p : Pipeline) : List (String × List String) :=
  p.invocations.map (fun nv => (nv.1, nv.2.upstream_steps))

/-- The node identifiers of a DAG. -/
def dagKeys (dag : List (String × List String)) : List String :=
  dag.map (fun kv => kv.1)

/-- Every upstream reference of the DAG resolves to an existing node. -/
def validUpstreams (dag : List (String × List String)) : Prop :=
  ∀ kv ∈ dag, ∀ u ∈ kv.2, u ∈ dagKeys dag

/-- The DAG contains a cycle: a nonempty set of nodes each of which has a
parent inside the set.  For a finite graph this holds exactly when a directed
cycle exists, and it is precisely the condition under which layering leaves
unprocessable residual nodes. -/
def hasCycleSet (dag : List (String × List String)) : Prop :=
  ∃ S : List String, S ≠ [] ∧ (∀ n ∈ S, n ∈ dagKeys dag) ∧
    ∀ n ∈ S, ∃ p ∈ parentsOf dag n, p ∈ S

/-- A flattened execution order is dependency-closed over `emitted`: every
node's parents lie among the already-emitted nodes at its position. -/
def chainOK (dag : List (String × List String)) :
    List String → List String → Prop
  | _, [] => True
  | emitted, n :: rest =>
      (∀ p ∈ parentsOf dag n, p ∈ emitted) ∧ chainOK dag (emitted ++ [n]) rest

/-! ## Lemmas about the layering loop -/

theorem chainOK_mono {dag : List (String × List String)} :
    ∀ {l emitted emitted' : List String},
      (∀ x ∈ emitted, x ∈ emitted') →
      chainOK dag emitted l → chainOK dag emitted' l
  | [], _, _, _, _ => trivial
  | n :: rest, emitted, emitted', hsub, h => by
      refine ⟨fun p hp => hsub _ (h.1 p hp), ?_⟩
      refine chainOK_mono (fun x hx => ?_) h.2
      rcases List.mem_append.mp hx with h1 | h2
      · exact List.mem_append.mpr (Or.inl (hsub _ h1))
      · exact List.mem_append.mpr (Or.inr h2)

theorem chainOK_append {dag : List (String × List String)} :
    ∀ {l1 emitted l2 : List String},
      chainOK dag emitted (l1 ++ l2) ↔
        chainOK dag emitted l1 ∧ chainOK dag (emitted ++ l1) l2
  | [], emitted, l2 => by simp [chainOK]
  | n :: rest, emitted, l2 => by
      simp only [List.cons_append, chainOK, List.append_eq]
      rw [@chainOK_append dag rest (emitted ++ [n]) l2, List.append_assoc,
        List.singleton_append, and_assoc]

theorem chainOK_of_ready {dag : List (String × List String)} :
    ∀ {l emitted : List String},
      (∀ n ∈ l, ∀ p ∈ parentsOf dag n, p ∈ emitted) → chainOK dag emitted l
  | [], _, _ => trivial
  | n :: rest, emitted, h => by
      refine ⟨h n (List.mem_cons_self n rest), ?_⟩
      refine chainOK_of_ready (fun m hm p hp => ?_)
      exact List.mem_append.mpr
        (Or.inl (h m (List.mem_cons_of_mem n hm) p hp))

theorem layersLoop_ok_perm {dag : List (String × List String)} :
    ∀ {fuel : Nat} {emitted remaining : List String} {layers : List (List String)},
      layersLoop dag fuel emitted remaining = .ok layers →
      layers.flatten.Perm remaining := by
  intro fuel
  induction fuel with
  | zero =>
      intro emitted remaining layers h
      simp only [layersLoop] at h
      split at h
      · next hre =>
          cases h
          simp [List.isEmpty_iff.mp hre]
      · exact absurd h (by simp)
  | succ fuel ih =>
      intro emitted remaining layers h
      simp only [layersLoop] at h
      split at h
      · split at h
        · next hre =>
            cases h
            simp [List.isEmpty_iff.mp hre]
        · exact absurd h (by simp)
      · next hready =>
          split at h
          · exact absurd h (by simp)
          · next layers' hrec =>
              cases h
              have hperm := ih hrec
              have h1 : (readyNodes dag emitted remaining :: layers').flatten
                  = readyNodes dag emitted remaining ++ layers'.flatten := by
                simp
              rw [h1]
              have h2 := List.Perm.append_left (readyNodes dag emitted remaining) hperm
              exact h2.trans (List.filter_append_perm (readyPred dag emitted) remaining)

theorem layersLoop_ok_chain {dag : List (String × List String)} :
    ∀ {fuel : Nat} {emitted remaining : List String} {layers : List (List String)},
      layersLoop dag fuel emitted remaining = .ok layers →
      chainOK dag emitted layers.flatten := by
  intro fuel
  induction fuel with
  | zero =>
      intro emitted remaining layers h
      simp only [layersLoop] at h
      split at h
      · cases h; trivial
      · exact absurd h (by simp)
  | succ fuel ih =>
      intro emitted remaining layers h
      simp only [layersLoop] at h
      split at h
      · split at h
        · cases h; trivial
        · exact absurd h (by simp)
      · next hready =>
          split at h
          · exact absurd h (by simp)
          · next layers' hrec =>
              cases h
              have hchain' := ih hrec
              have h1 : (readyNodes dag emitted remaining :: layers').flatten
                  = readyNodes dag emitted remaining ++ layers'.flatten := by
                simp
              rw [h1, chainOK_append]
              constructor
              · refine chainOK_of_ready (fun n hn p hp => ?_)
                have := (List.mem_filter.mp hn).2
                exact (of_decide_eq_true this) p hp
              · exact hchain'

theorem layersLoop_error_cycle {dag : List (String × List String)} :
    ∀ {fuel : Nat} {emitted remaining : List String} {e : Err},
      layersLoop dag fuel emitted remaining = .error e →
      remaining.length < fuel →
      (∀ n ∈ remaining, n ∈ dagKeys dag) →
      (∀ n ∈ dagKeys dag, ∀ p ∈ parentsOf dag n, p ∈ dagKeys dag) →
      (∀ k ∈ dagKeys dag, k ∈ emitted ∨ k ∈ remaining) →
      ∃ S, e = .cycleError S ∧ S ≠ [] ∧ (∀ n ∈ S, n ∈ dagKeys dag) ∧
        ∀ n ∈ S, ∃ p ∈ parentsOf dag n, p ∈ S := by
  intro fuel
  induction fuel with
  | zero => intro _ _ _ _ hlen; omega
  | succ fuel ih =>
      intro emitted remaining e h hlen hrk hclosed hunion
      simp only [layersLoop] at h
      split at h
      · next hready =>
          split at h
          · exact absurd h (by simp)
          · next hre =>
              cases h
              refine ⟨remaining, rfl, fun hnil => hre (by simp [hnil]), hrk,
                fun n hn => ?_⟩
              have hnotready : readyPred dag emitted n = false := by
                have := List.filter_eq_nil_iff.mp (List.isEmpty_iff.mp hready)
                simpa using this n hn
              have hnot : ¬ ∀ p ∈ parentsOf dag n, p ∈ emitted := by
                simpa [readyPred] using hnotready
              push_neg at hnot
              obtain ⟨p, hp, hpem⟩ := hnot
              refine ⟨p, hp, ?_⟩
              have hpkeys : p ∈ dagKeys dag := hclosed n (hrk n hn) p hp
              rcases hunion p hpkeys with h1 | h2
              · exact absurd h1 hpem
              · exact h2
      · next hready =>
          split at h
          · next e' hrec =>
              cases h
              have hlensum : (readyNodes dag emitted remaining).length +
                  (remaining.filter (fun n => ! readyPred dag emitted n)).length
                  = remaining.length := by
                have := (List.filter_append_perm (readyPred dag emitted)
                  remaining).length_eq
                simpa [readyNodes] using this
              have hreadypos : 0 < (readyNodes dag emitted remaining).length := by
                rcases Nat.eq_zero_or_pos (readyNodes dag emitted remaining).length
                  with h0 | hpos
                · exact absurd (List.isEmpty_iff.mpr (List.eq_nil_of_length_eq_zero h0))
                    hready
                · exact hpos
              refine ih hrec (by omega) (fun n hn => hrk n (List.mem_of_mem_filter hn))
                hclosed (fun k hk => ?_)
              rcases hunion k hk with h1 | h2
              · exact Or.inl (List.mem_append.mpr (Or.inl h1))
              · by_cases hrp : readyPred dag emitted k = true
                · refine Or.inl (List.mem_append.mpr (Or.inr ?_))
                  exact List.mem_filter.mpr ⟨h2, hrp⟩
                · refine Or.inr (List.mem_filter.mpr ⟨h2, ?_⟩)
                  simp [Bool.eq_false_iff.mpr hrp]
          · exact absurd h (by simp)

theorem no_cycle_of_chainOK {dag : List (String × List String)} :
    ∀ {flat emitted S : List String},
      chainOK dag emitted flat → S ≠ [] →
      (∀ n ∈ S, ∃ p ∈ parentsOf dag n, p ∈ S) →
      (∀ n ∈ S, n ∈ flat) → (∀ n ∈ S, n ∉ emitted) → False
  | [], _, S, _, hne, _, hmem, _ => by
      obtain ⟨n, hn⟩ := List.exists_mem_of_ne_nil S hne
      exact absurd (hmem n hn) (List.not_mem_nil n)
  | x :: rest, emitted, S, hchain, hne, hcyc, hmem, hem => by
      by_cases hxS : x ∈ S
      · obtain ⟨p, hp, hpS⟩ := hcyc x hxS
        exact absurd (hchain.1 p hp) (hem p hpS)
      · refine @no_cycle_of_chainOK dag rest (emitted ++ [x]) S
          hchain.2 hne hcyc (fun n hn => ?_) (fun n hn hmem' => ?_)
        · rcases List.mem_cons.mp (hmem n hn) with h1 | h2
          · exact absurd (h1 ▸ hn) hxS
          · exact h2
        · rcases List.mem_append.mp hmem' with h1 | h2
          · exact hem n hn h1
          · exact hxS ((List.mem_singleton.mp h2) ▸ hn)

/-! ## Association-list lemmas -/

theorem assocFind_some_mem {α : Type} {l : List (String × α)} {k : String}
    {v : α} (h : assocFind l k = some v) : ∃ kv ∈ l, kv.1 = k ∧ kv.2 = v := by
  unfold assocFind at h
  rcases hfind : l.find? (fun kv => kv.1 = k) with _ | kv
  · rw [hfind] at h
    simp at h
  · rw [hfind] at h
    simp only [Option.map_some'] at h
    have hpred := List.find?_some hfind
    exact ⟨kv, List.mem_of_find?_eq_some hfind, of_decide_eq_true hpred,
      Option.some_injective _ h⟩

theorem assocFind_isSome_of_mem_keys {α : Type} {l : List (String × α)}
    {k : String} (h : k ∈ l.map Prod.fst) : (assocFind l k).isSome := by
  simp only [List.mem_map] at h
  obtain ⟨kv, hkv, hk⟩ := h
  unfold assocFind
  rcases hfind : l.find? (fun kv => kv.1 = k) with _ | kv'
  · exfalso
    rw [List.find?_eq_none] at hfind
    exact hfind kv hkv (by simp [hk])
  · rw [hfind]
    simp

theorem assocFind_eq_of_mem_nodup {α : Type} :
    ∀ {l : List (String × α)} {k : String} {v : α},
      (l.map Prod.fst).Nodup → (k, v) ∈ l → assocFind l k = some v
  | [], _, _, _, hmem => absurd hmem (List.not_mem_nil _)
  | kv :: rest, k, v, hnodup, hmem => by
      rcases List.mem_cons.mp hmem with h1 | h2
      · cases h1
        simp [assocFind]
      · have hk : ¬ kv.1 = k := by
          intro hk
          have : kv.1 ∈ rest.map Prod.fst :=
            List.mem_map.mpr ⟨(k, v), h2, by simp [hk]⟩
          exact (List.nodup_cons.mp (by simpa using hnodup)).1 this
        have hrest := assocFind_eq_of_mem_nodup
          (List.nodup_cons.mp (by simpa using hnodup)).2 h2
        simpa [assocFind, List.find?_cons, hk] using hrest

/-! ## Topological layering: top-level corollaries -/

theorem parentsOf_mem_keys {dag : List (String × List String)}
    (hvalid : validUpstreams dag) :
    ∀ n ∈ dagKeys dag, ∀ p ∈ parentsOf dag n, p ∈ dagKeys dag := by
  intro n _ p hp
  simp only [parentsOf] at hp
  rcases hfind : assocFind dag n with _ | ups
  · rw [hfind] at hp
    simp at hp
  · rw [hfind] at hp
    obtain ⟨kv, hkv, _, hv⟩ := assocFind_some_mem hfind
    exact hvalid kv hkv p (by simpa [hv] using hp)

theorem topsorted_layers_ok_perm {dag : List (String × List String)}
    {layers : List (List String)} (h : topsorted_layers dag = .ok layers) :
    layers.flatten.Perm (dagKeys dag) :=
  layersLoop_ok_perm h

theorem topsorted_layers_ok_chain {dag : List (String × List String)}
    {layers : List (List String)} (h : topsorted_layers dag = .ok layers) :
    chainOK dag [] layers.flatten :=
  layersLoop_ok_chain h

theorem topsorted_layers_error_cycle {dag : List (String × List String)}
    {e : Err} (h : topsorted_layers dag = .error e)
    (hvalid : validUpstreams dag) :
    (∃ S, e = .cycleError S) ∧ hasCycleSet dag := by
  have hclosed := parentsOf_mem_keys hvalid
  have := layersLoop_error_cycle h (by simp [dagKeys])
    (fun n hn => hn) hclosed (fun k hk => Or.inr hk)
  obtain ⟨S, he, hne, hkeys, hcyc⟩ := this
  exact ⟨⟨S, he⟩, S, hne, hkeys, hcyc⟩

theorem topsorted_layers_ok_of_acyclic {dag : List (String × List String)}
    (hvalid : validUpstreams dag) (hacyc : ¬ hasCycleSet dag) :
    ∃ layers, topsorted_layers dag = .ok layers := by
  rcases hres : topsorted_layers dag with e | layers
  · exact absurd (topsorted_layers_error_cycle hres hvalid).2 hacyc
  · exact ⟨layers, rfl⟩

theorem topsorted_layers_ok_no_cycle {dag : List (String × List String)}
    {layers : List (List String)} (h : topsorted_layers dag = .ok layers) :
    ¬ hasCycleSet dag := by
  intro hcyc
  obtain ⟨S, hne, hkeys, hcycS⟩ := hcyc
  have hperm := topsorted_layers_ok_perm h
  have hchain := topsorted_layers_ok_chain h
  refine no_cycle_of_chainOK hchain hne hcycS (fun n hn => ?_)
    (fun n _ hmem => absurd hmem (List.not_mem_nil n))
  exact hperm.mem_iff.mpr (hkeys n hn)

theorem chainOK_position {dag : List (String × List String)} :
    ∀ {flat emitted : List String}, chainOK dag emitted flat →
      ∀ i (hi : i < flat.length), ∀ q ∈ parentsOf dag flat[i],
        q ∈ emitted ∨ ∃ j, ∃ hj : j < flat.length, j < i ∧ flat[j] = q
  | [], _, _, _, hi => absurd hi (by simp)
  | x :: rest, emitted, h, 0, hi => fun q hq => Or.inl (h.1 q hq)
  | x :: rest, emitted, h, i + 1, hi => fun q hq => by
      have hi' : i < rest.length := by simpa using hi
      have hq' : q ∈ parentsOf dag rest[i] := by
        simpa using hq
      rcases chainOK_position h.2 i hi' q hq' with hin | ⟨j, hj, hji, hget⟩
      · rcases List.mem_append.mp hin with h1 | h2
        · exact Or.inl h1
        · refine Or.inr ⟨0, by simp, by omega, ?_⟩
          simpa using (List.mem_singleton.mp h2).symm
      · refine Or.inr ⟨j + 1, by simpa using Nat.succ_lt_succ hj, by omega, ?_⟩
        simpa using hget

/-! ## `buildDag` and `get_sorted_invocations` -/

/-- An arbitrary step configuration (used for default values). -/
def emptyStepConfiguration : StepConfiguration where
  enable_cache := none
  enable_artifact_metadata := none
  enable_artifact_visualization := none
  settings := []
  extra := []
  failure_hook_source := none
  success_hook_source := none
  step_operator := none
  experiment_tracker := none

/-- An arbitrary step invocation (out-of-bounds default, never reached). -/
def defaultInvocation : StepInvocation where
  id := ""
  step := { source := { import_path := "" }, configuration := emptyStepConfiguration }
  upstream_steps := []
  input_artifacts := []

theorem verify_upstream_steps_ok {inv : StepInvocation} {p : Pipeline}
    (h : ∀ u ∈ inv.upstream_steps, u ∈ p.invocations.map (fun kv => kv.1)) :
    verify_upstream_steps inv p = .ok () := by
  simp only [verify_upstream_steps]
  rw [if_pos]
  rw [List.isEmpty_iff, List.filter_eq_nil_iff]
  intro u hu
  simpa using h u hu

theorem verify_upstream_steps_error {inv : StepInvocation} {p : Pipeline}
    {e : Err} (h : verify_upstream_steps inv p = .error e) :
    ∃ bad, e = .runtimeError bad (p.invocations.map (fun kv => kv.1)) ∧
      bad ≠ [] ∧ (∀ b ∈ bad, b ∈ inv.upstream_steps) ∧
      ∀ b ∈ bad, b ∉ p.invocations.map (fun kv => kv.1) := by
  simp only [verify_upstream_steps] at h
  split at h
  · exact absurd h (by simp)
  · next hne =>
      cases h
      refine ⟨_, rfl, ?_, fun b hb => (List.mem_filter.mp hb).1, fun b hb => ?_⟩
      · intro hnil
        rw [hnil] at hne
        exact hne rfl
      · have := (List.mem_filter.mp hb).2
        simpa using this

theorem buildDag_ok_shape {p : Pipeline} :
    ∀ {invs : List (String × StepInvocation)}
      {d : List (String × List String)},
      buildDag p invs = .ok d →
      d = invs.map (fun nv => (nv.1, nv.2.upstream_steps)) := by
  intro invs
  induction invs with
  | nil => intro d h; simp only [buildDag] at h; cases h; rfl
  | cons nv rest ih =>
      intro d h
      simp only [buildDag] at h
      split at h
      · exact absurd h (by simp)
      · split at h
        · exact absurd h (by simp)
        · next restDag hrest =>
            cases h
            rw [List.map_cons, ih hrest]

theorem buildDag_ok_of_valid {p : Pipeline} :
    ∀ {invs : List (String × StepInvocation)},
      (∀ nv ∈ invs, ∀ u ∈ nv.2.upstream_steps,
        u ∈ p.invocations.map (fun kv => kv.1)) →
      buildDag p invs = .ok (invs.map (fun nv => (nv.1, nv.2.upstream_steps))) := by
  intro invs
  induction invs with
  | nil => intro _; rfl
  | cons nv rest ih =>
      intro hvalid
      have hok := verify_upstream_steps_ok
        (hvalid nv (List.mem_cons_self nv rest))
      simp only [buildDag, hok]
      rw [ih (fun mv hm => hvalid mv (List.mem_cons_of_mem nv hm))]
      rfl

theorem buildDag_error_shape {p : Pipeline} :
    ∀ {invs : List (String × StepInvocation)} {e : Err},
      buildDag p invs = .error e →
      ∃ bad, e = .runtimeError bad (p.invocations.map (fun kv => kv.1)) ∧
        bad ≠ [] ∧ (∃ nv ∈ invs, ∀ b ∈ bad, b ∈ nv.2.upstream_steps) ∧
        ∀ b ∈ bad, b ∉ p.invocations.map (fun kv => kv.1) := by
  intro invs
  induction invs with
  | nil => intro e h; simp [buildDag] at h
  | cons nv rest ih =>
      intro e h
      simp only [buildDag] at h
      split at h
      · next e' hverify =>
          cases h
          obtain ⟨bad, he, hne, hup, hnot⟩ := verify_upstream_steps_error hverify
          exact ⟨bad, he, hne, ⟨nv, List.mem_cons_self nv rest, hup⟩, hnot⟩
      · split at h
        · next e' hrest =>
            cases h
            obtain ⟨bad, he, hne, ⟨mv, hmv, hup⟩, hnot⟩ := ih hrest
            exact ⟨bad, he, hne, ⟨mv, List.mem_cons_of_mem nv hmv, hup⟩, hnot⟩
        · exact absurd h (by simp)

theorem buildDag_error_of_invalid {p : Pipeline} :
    ∀ {invs : List (String × StepInvocation)} {nv : String × StepInvocation}
      {u : String}, nv ∈ invs → u ∈ nv.2.upstream_steps →
      u ∉ p.invocations.map (fun kv => kv.1) →
      ∃ e, buildDag p invs = .error e := by
  intro invs
  induction invs with
  | nil => intro nv u hmem _ _; exact absurd hmem (List.not_mem_nil nv)
  | cons mv rest ih =>
      intro nv u hmem hu hnot
      simp only [buildDag]
      rcases hv : verify_upstream_steps mv.2 p with e | u0
      · exact ⟨e, rfl⟩
      · rcases List.mem_cons.mp hmem with h1 | h2
        · exfalso
          subst h1
          simp only [verify_upstream_steps] at hv
          split at hv
          · next hemp =>
              rw [List.isEmpty_iff, List.filter_eq_nil_iff] at hemp
              exact hemp u hu (by simpa using hnot)
          · exact absurd hv (by simp)
        · obtain ⟨e, he⟩ := ih h2 hu hnot
          rw [he]
          exact ⟨e, by cases u0; rfl⟩

theorem assocFind_map {α β : Type} (f : α → β) :
    ∀ (l : List (String × α)) (k : String),
      assocFind (l.map (fun kv => (kv.1, f kv.2))) k = (assocFind l k).map f
  | [], _ => rfl
  | kv :: rest, k => by
      by_cases hk : kv.1 = k
      · simp [assocFind, List.find?_cons, hk]
      · have := assocFind_map f rest k
        simpa [assocFind, List.find?_cons, hk] using this

theorem parentsOf_dagOf {p : Pipeline} (n : String) :
    parentsOf (dagOf p) n =
      ((assocFind p.invocations n).map (fun inv => inv.upstream_steps)).getD [] := by
  simp [parentsOf, dagOf, assocFind_map]

theorem filterMap_assocFind_eq_map {invs : List (String × StepInvocation)} :
    ∀ {nodes : List String},
      (∀ n ∈ nodes, n ∈ invs.map (fun kv => kv.1)) →
      nodes.filterMap (fun n => (assocFind invs n).map (fun inv => (n, inv)))
        = nodes.map (fun n => (n, (assocFind invs n).getD defaultInvocation)) := by
  intro nodes
  induction nodes with
  | nil => intro _; rfl
  | cons n rest ih =>
      intro h
      have hsome : (assocFind invs n).isSome :=
        assocFind_isSome_of_mem_keys (by
          simpa using h n (List.mem_cons_self n rest))
      rcases hfind : assocFind invs n with _ | v
      · rw [hfind] at hsome; simp at hsome
      · simp only [List.filterMap_cons, List.map_cons, hfind, Option.map_some',
          Option.getD_some]
        rw [ih (fun m hm => h m (List.mem_cons_of_mem n hm))]

theorem dagKeys_dagOf (p : Pipeline) :
    dagKeys (dagOf p) = p.invocations.map (fun kv => kv.1) := by
  simp [dagKeys, dagOf, List.map_map]

/-! ## Claim theorems -/

/-- Claim C1: for every pipeline whose step-invocation dependency graph is
acyclic — with every upstream reference resolving to an existing invocation
and invocation names unique, as the keys of the Python invocation dict are —
`Compiler._get_sorted_invocations` returns a flattened sequence of
invocations that is a valid topological order: every invocation appears
exactly once, and each invocation appears strictly after every invocation
named in its `upstream_steps` set. -/
theorem c1_sorted_invocations_topological_order (p : Pipeline)
    (hnodup : (p.invocations.map (fun kv => kv.1)).Nodup)
    (hvalid : ∀ nv ∈ p.invocations, ∀ u ∈ nv.2.upstream_steps,
      u ∈ p.invocations.map (fun kv => kv.1))
    (hacyc : ¬ hasCycleSet (dagOf p)) :
    ∃ sorted, get_sorted_invocations p = .ok sorted ∧
      (∀ nv ∈ p.invocations, (sorted.map (fun kv => kv.1)).count nv.1 = 1) ∧
      (∀ x ∈ sorted, x ∈ p.invocations) ∧
      ∀ i (hi : i < sorted.length), ∀ u ∈ sorted[i].2.upstream_steps,
        ∃ j, ∃ hj : j < sorted.length, j < i ∧ sorted[j].1 = u := by
  have hvalidD : validUpstreams (dagOf p) := by
    intro kv hkv u hu
    simp only [dagOf, List.mem_map] at hkv
    obtain ⟨nv, hnv, hkv'⟩ := hkv
    rw [dagKeys_dagOf]
    refine hvalid nv hnv u ?_
    rw [← hkv'] at hu
    simpa using hu
  have hbuild : buildDag p p.invocations = .ok (dagOf p) :=
    buildDag_ok_of_valid hvalid
  obtain ⟨layers, hlayers⟩ := topsorted_layers_ok_of_acyclic hvalidD hacyc
  obtain ⟨flat, hflat⟩ : ∃ flat, flat = layers.flatten := ⟨_, rfl⟩
  have hperm : flat.Perm (p.invocations.map (fun kv => kv.1)) := by
    have := topsorted_layers_ok_perm hlayers
    rw [dagKeys_dagOf] at this
    rwa [hflat]
  have hchain : chainOK (dagOf p) [] flat := by
    rw [hflat]
    exact topsorted_layers_ok_chain hlayers
  have hmemflat : ∀ n ∈ flat, n ∈ p.invocations.map (fun kv => kv.1) :=
    fun n hn => hperm.mem_iff.mp hn
  have hsorted : get_sorted_invocations p = .ok (flat.map
      (fun n => (n, (assocFind p.invocations n).getD defaultInvocation))) := by
    simp only [get_sorted_invocations, hbuild, hlayers]
    rw [← hflat]
    rw [filterMap_assocFind_eq_map (fun n hn => by simpa using hmemflat n hn)]
  refine ⟨_, hsorted, ?_, ?_, ?_⟩
  · intro nv hnv
    have hfst : (flat.map
        (fun n => (n, (assocFind p.invocations n).getD defaultInvocation))).map
        (fun kv => kv.1) = flat := by
      rw [List.map_map]
      exact List.map_id flat
    rw [hfst, hperm.count_eq]
    exact List.count_eq_one_of_mem hnodup (List.mem_map.mpr ⟨nv, hnv, rfl⟩)
  · intro x hx
    simp only [List.mem_map] at hx
    obtain ⟨n, hn, hx'⟩ := hx
    have hsome := assocFind_isSome_of_mem_keys (l := p.invocations)
      (by simpa using hmemflat n hn)
    rcases hfind : assocFind p.invocations n with _ | inv
    · rw [hfind] at hsome; simp at hsome
    · obtain ⟨kv, hkv, hk1, hk2⟩ := assocFind_some_mem hfind
      rw [← hx']
      rw [hfind]
      have : (n, inv) = kv := by
        rw [← hk1, ← hk2]
      rw [Option.getD_some, this]
      exact hkv
  · intro i hi u hu
    have hlen : i < flat.length := by simpa using hi
    have hgeti : (flat.map
        (fun n => (n, (assocFind p.invocations n).getD defaultInvocation)))[i]
        = (flat[i], (assocFind p.invocations flat[i]).getD defaultInvocation) := by
      simp
    have hmemi : flat[i] ∈ p.invocations.map (fun kv => kv.1) :=
      hmemflat _ (flat.getElem_mem hlen)
    have hsome := assocFind_isSome_of_mem_keys (l := p.invocations) hmemi
    rcases hfind : assocFind p.invocations flat[i] with _ | inv
    · rw [hfind] at hsome; simp at hsome
    · have hpar : parentsOf (dagOf p) flat[i] = inv.upstream_steps := by
        rw [parentsOf_dagOf, hfind]
        rfl
      have hu' : u ∈ parentsOf (dagOf p) flat[i] := by
        rw [hpar]
        rw [hgeti] at hu
        simpa [hfind] using hu
      rcases chainOK_position hchain i hlen u hu' with hemp | ⟨j, hj, hji, hget⟩
      · exact absurd hemp (List.not_mem_nil u)
      · refine ⟨j, by simpa using hj, hji, ?_⟩
        simp only [List.getElem_map]
        rw [hget]

/-! ## Concrete example pipelines (spec §8's example scenario and variants) -/

/-- Step invocation `A` of the example two-step pipeline. -/
def exampleInvA : StepInvocation where
  id := "A"
  step := { source := { import_path := "mod.step_a" },
            configuration := emptyStepConfiguration }
  upstream_steps := []
  input_artifacts := []

/-- Step invocation `B` of the example two-step pipeline, downstream of `A`,
with its own `enable_cache=True`. -/
def exampleInvB : StepInvocation where
  id := "B"
  step := { source := { import_path := "mod.step_b" },
            configuration := { emptyStepConfiguration with enable_cache := some true } }
  upstream_steps := ["A"]
  input_artifacts := [("arg", { invocation_id := "A", output_name := "output" })]

/-- The example two-step pipeline `A → B` of spec §8. -/
def examplePipeline : Pipeline where
  name := "example_pipeline"
  invocations := [("A", exampleInvA), ("B", exampleInvB)]
  configuration := defaultPipeline.configuration
  source := { import_path := "mod.example_pipeline" }
  parameters := []
  is_legacy := false

/-- A pipeline whose graph has the cycle `A → B → A`. -/
def cyclicPipeline : Pipeline where
  name := "cyclic_pipeline"
  invocations :=
    [("A", { exampleInvA with upstream_steps := ["B"] }),
     ("B", { exampleInvB with input_artifacts := [] })]
  configuration := defaultPipeline.configuration
  source := { import_path := "mod.cyclic_pipeline" }
  parameters := []
  is_legacy := false

/-- A pipeline whose invocation `B` names the nonexistent upstream step
`missing`. -/
def danglingPipeline : Pipeline where
  name := "dangling_pipeline"
  invocations :=
    [("A", exampleInvA),
     ("B", { exampleInvB with upstream_steps := ["missing"], input_artifacts := [] })]
  configuration := defaultPipeline.configuration
  source := { import_path := "mod.dangling_pipeline" }
  parameters := []
  is_legacy := false

/-- A stack with no components. -/
def emptyStack : Stack where
  name := "default"
  components := []
  step_operator := none
  experiment_tracker := none
  resolvable_keys := []

/-- An empty run configuration. -/
def emptyRunConfiguration : PipelineRunConfiguration where
  run_name := none
  enable_cache := none
  enable_artifact_metadata := none
  enable_artifact_visualization := none
  steps := []
  settings := []
  extra := []

/-- Witness for claim C1: the example two-step pipeline `A → B` satisfies the
hypotheses, and its sorted invocations are a topological order. -/
theorem c1_witness :
    (examplePipeline.invocations.map (fun kv => kv.1)).Nodup ∧
    (¬ hasCycleSet (dagOf examplePipeline)) ∧
    ∃ sorted, get_sorted_invocations examplePipeline = .ok sorted ∧
      (∀ nv ∈ examplePipeline.invocations,
        (sorted.map (fun kv => kv.1)).count nv.1 = 1) ∧
      (∀ x ∈ sorted, x ∈ examplePipeline.invocations) ∧
      ∀ i (hi : i < sorted.length), ∀ u ∈ sorted[i].2.upstream_steps,
        ∃ j, ∃ hj : j < sorted.length, j < i ∧ sorted[j].1 = u := by
  have hacyc : ¬ hasCycleSet (dagOf examplePipeline) :=
    topsorted_layers_ok_no_cycle
      (show topsorted_layers (dagOf examplePipeline) = .ok [["A"], ["B"]] from
        rfl)
  refine ⟨by decide, hacyc, ?_⟩
  exact c1_sorted_invocations_topological_order examplePipeline (by decide)
    (by decide) hacyc

/-! ## Preservation lemmas: the configuration stages do not touch the graph -/

theorem dagOf_mapStepConfigurations (p : Pipeline)
    (f : StepConfiguration → StepConfiguration) :
    dagOf (p.mapStepConfigurations f) = dagOf p := by
  simp only [dagOf, Pipeline.mapStepConfigurations, List.map_map]
  exact List.map_congr_left (fun nv _ => rfl)

theorem applyStepUpdates_preserves :
    ∀ {updates : List (String × StepConfigurationUpdate)} {p p' : Pipeline},
      applyStepUpdates p updates = .ok p' →
      dagOf p' = dagOf p ∧ p'.name = p.name := by
  intro updates
  induction updates with
  | nil => intro p p' h; cases h; exact ⟨rfl, rfl⟩
  | cons u rest ih =>
      intro p p' h
      simp only [applyStepUpdates] at h
      split at h
      · obtain ⟨hdag, hname⟩ := ih h
        refine ⟨hdag.trans ?_, hname⟩
        simp only [dagOf, List.map_map]
        refine List.map_congr_left (fun nv _ => ?_)
        by_cases hn : nv.1 = u.1 <;> simp [hn]
      · exact absurd h (by simp)

theorem apply_run_configuration_preserves {p p' : Pipeline}
    {cfg : PipelineRunConfiguration}
    (h : apply_run_configuration p cfg = .ok p') :
    dagOf p' = dagOf p ∧ p'.name = p.name := by
  simp only [apply_run_configuration] at h
  split at h
  · exact absurd h (by simp)
  · next p1 hsteps =>
      obtain ⟨hdag1, hname1⟩ := applyStepUpdates_preserves hsteps
      have hdag1' : dagOf p1 = dagOf p := hdag1
      have hname1' : p1.name = p.name := hname1
      cases h
      constructor
      · rcases cfg.enable_cache with _ | b <;>
          rcases cfg.enable_artifact_metadata with _ | b' <;>
          rcases cfg.enable_artifact_visualization with _ | b'' <;>
          simp [dagOf_mapStepConfigurations, hdag1']
      · rcases cfg.enable_cache with _ | b <;>
          rcases cfg.enable_artifact_metadata with _ | b' <;>
          rcases cfg.enable_artifact_visualization with _ | b'' <;>
          simp [Pipeline.mapStepConfigurations, hname1']

theorem dagOf_withSettings (p : Pipeline) (s : List (String × BaseSettings)) :
    dagOf (p.withSettings s) = dagOf p := rfl

theorem dagOf_apply_stack_default_settings (p : Pipeline) (stack : Stack) :
    dagOf (apply_stack_default_settings p stack) = dagOf p := rfl

theorem keys_eq_of_dagOf_eq {p q : Pipeline} (h : dagOf p = dagOf q) :
    p.invocations.map (fun kv => kv.1) = q.invocations.map (fun kv => kv.1) := by
  rw [← dagKeys_dagOf, ← dagKeys_dagOf, h]

/-- Claim C2: for every pipeline whose step-invocation dependency graph
contains a cycle, with every upstream reference resolving to an existing
invocation, sorting and spec-only compilation terminate (both are total
functions of this embedding) and fail with the structural cycle error; no
result that could omit an invocation is returned. -/
theorem c2_cycle_detected (p : Pipeline)
    (hvalid : ∀ nv ∈ p.invocations, ∀ u ∈ nv.2.upstream_steps,
      u ∈ p.invocations.map (fun kv => kv.1))
    (hcyc : hasCycleSet (dagOf p)) :
    (∃ S, get_sorted_invocations p = .error (.cycleError S)) ∧
    (∃ S, compile_spec p = .error (.cycleError S)) ∧
    ∀ result, get_sorted_invocations p ≠ .ok result := by
  have hvalidD : validUpstreams (dagOf p) := by
    intro kv hkv u hu
    simp only [dagOf, List.mem_map] at hkv
    obtain ⟨nv, hnv, hkv'⟩ := hkv
    rw [dagKeys_dagOf]
    refine hvalid nv hnv u ?_
    rw [← hkv'] at hu
    simpa using hu
  have hbuild : buildDag p p.invocations = .ok (dagOf p) :=
    buildDag_ok_of_valid hvalid
  rcases hres : topsorted_layers (dagOf p) with e | layers
  · obtain ⟨⟨S, hS⟩, _⟩ := topsorted_layers_error_cycle hres hvalidD
    have hsort : get_sorted_invocations p = .error e := by
      simp only [get_sorted_invocations, hbuild, hres]
    refine ⟨⟨S, by rw [hsort, hS]⟩, ⟨S, ?_⟩, fun result hok => ?_⟩
    · simp only [compile_spec, hsort, hS]
    · rw [hsort] at hok
      exact absurd hok (by simp)
  · exact absurd hcyc (topsorted_layers_ok_no_cycle hres)

/-- Witness for claim C2: the pipeline with cycle `A → B → A` satisfies the
hypotheses and spec-only compilation fails with the structural cycle error. -/
theorem c2_witness :
    hasCycleSet (dagOf cyclicPipeline) ∧
    (∃ S, compile_spec cyclicPipeline = .error (.cycleError S)) := by
  have hcyc : hasCycleSet (dagOf cyclicPipeline) :=
    ⟨["A", "B"], by decide, by decide, by decide⟩
  exact ⟨hcyc, (c2_cycle_detected cyclicPipeline (by decide) hcyc).2.1⟩

/-- Claim C3: for every pipeline containing an invocation whose
`upstream_steps` set names a step absent from the invocation mapping, both
`compile_spec` and `compile` (once the stages preceding the sort succeed)
fail with the structural `RuntimeError` carrying the missing step names —
each of which is indeed missing — and no deployment or spec is returned. -/
theorem c3_missing_upstream_error (p : Pipeline) (nv : String × StepInvocation)
    (u : String) (hnv : nv ∈ p.invocations) (hu : u ∈ nv.2.upstream_steps)
    (hmissing : u ∉ p.invocations.map (fun kv => kv.1)) :
    (∃ bad, compile_spec p =
        .error (.runtimeError bad (p.invocations.map (fun kv => kv.1))) ∧
      bad ≠ [] ∧ ∀ b ∈ bad, b ∉ p.invocations.map (fun kv => kv.1)) ∧
    ∀ (stack : Stack) (cfg : PipelineRunConfiguration) (p1 : Pipeline)
      (ps : List (String × BaseSettings)),
      apply_run_configuration p cfg = .ok p1 →
      runNameStage cfg = .ok () →
      filter_and_validate_settings
        (apply_stack_default_settings p1 stack).configuration.settings
        ConfigurationLevel.PIPELINE stack = .ok ps →
      ∃ bad, compile p stack cfg =
          .error (.runtimeError bad (p.invocations.map (fun kv => kv.1))) ∧
        bad ≠ [] ∧ ∀ b ∈ bad, b ∉ p.invocations.map (fun kv => kv.1) := by
  constructor
  · obtain ⟨e, he⟩ := buildDag_error_of_invalid hnv hu hmissing
    obtain ⟨bad, hshape, hne, _, hnot⟩ := buildDag_error_shape he
    refine ⟨bad, ?_, hne, hnot⟩
    simp only [compile_spec, get_sorted_invocations, he, hshape]
  · intro stack cfg p1 ps happly hrn hflt
    obtain ⟨hdag1, _⟩ := apply_run_configuration_preserves happly
    have hdag2 : dagOf ((apply_stack_default_settings p1 stack).withSettings ps)
        = dagOf p := hdag1
    have hkeys := keys_eq_of_dagOf_eq hdag2
    have hmem2 : (nv.1, nv.2.upstream_steps)
        ∈ dagOf ((apply_stack_default_settings p1 stack).withSettings ps) := by
      rw [hdag2]
      exact List.mem_map.mpr ⟨nv, hnv, rfl⟩
    simp only [dagOf, List.mem_map] at hmem2
    obtain ⟨nv2, hnv2, heq2⟩ := hmem2
    have hu2 : u ∈ nv2.2.upstream_steps := by
      have : nv2.2.upstream_steps = nv.2.upstream_steps :=
        congrArg Prod.snd heq2
      rw [this]
      exact hu
    have hmissing2 : u ∉ ((apply_stack_default_settings p1 stack).withSettings
        ps).invocations.map (fun kv => kv.1) := by
      rw [hkeys]
      exact hmissing
    obtain ⟨e, he⟩ := buildDag_error_of_invalid hnv2 hu2 hmissing2
    obtain ⟨bad, hshape, hne, _, hnot⟩ := buildDag_error_shape he
    rw [hkeys] at hshape hnot
    refine ⟨bad, ?_, hne, hnot⟩
    have hsort : get_sorted_invocations
        ((apply_stack_default_settings p1 stack).withSettings ps)
        = .error e := by
      simp only [get_sorted_invocations, he]
    simp only [compile, happly, compileStages, compileStagesSorted, hrn, hflt,
      hsort, hshape]

/-- Witness for claim C3: the pipeline whose invocation `B` names the
nonexistent upstream `missing` fails both compilation paths with the
structural error naming it. -/
theorem c3_witness :
    ("missing" ∈ ("B", danglingPipeline.invocations.getD 1
        ("", defaultInvocation) |>.2).2.upstream_steps) ∧
    (∃ bad, compile_spec danglingPipeline =
        .error (.runtimeError bad
          (danglingPipeline.invocations.map (fun kv => kv.1))) ∧
      bad ≠ [] ∧
      ∀ b ∈ bad, b ∉ danglingPipeline.invocations.map (fun kv => kv.1)) ∧
    ∃ bad, compile danglingPipeline emptyStack emptyRunConfiguration =
        .error (.runtimeError bad
          (danglingPipeline.invocations.map (fun kv => kv.1))) ∧
      bad ≠ [] ∧
      ∀ b ∈ bad, b ∉ danglingPipeline.invocations.map (fun kv => kv.1) := by
  have h := c3_missing_upstream_error danglingPipeline
    ("B", { exampleInvB with upstream_steps := ["missing"], input_artifacts := [] })
    "missing" (by decide) (by decide) (by decide)
  exact ⟨by decide, h.1,
    h.2 emptyStack emptyRunConfiguration danglingPipeline [] rfl rfl rfl⟩

/-! ## Lemmas for the run-level boolean overrides -/

theorem mapStepConfigurations_pred (p : Pipeline)
    (f : StepConfiguration → StepConfiguration) (Q : StepConfiguration → Prop)
    (hf : ∀ c, Q (f c)) :
    ∀ nv ∈ (p.mapStepConfigurations f).invocations, Q nv.2.step.configuration := by
  intro nv hnv
  simp only [Pipeline.mapStepConfigurations, List.mem_map] at hnv
  obtain ⟨nv0, _, hnv0⟩ := hnv
  rw [← hnv0]
  exact hf _

theorem mapStepConfigurations_pred_preserve (p : Pipeline)
    (f : StepConfiguration → StepConfiguration) (Q : StepConfiguration → Prop)
    (hf : ∀ c, Q c → Q (f c))
    (hall : ∀ nv ∈ p.invocations, Q nv.2.step.configuration) :
    ∀ nv ∈ (p.mapStepConfigurations f).invocations, Q nv.2.step.configuration := by
  intro nv hnv
  simp only [Pipeline.mapStepConfigurations, List.mem_map] at hnv
  obtain ⟨nv0, hm, hnv0⟩ := hnv
  rw [← hnv0]
  exact hf _ (hall nv0 hm)

theorem apply_run_configuration_forces_flags {p p' : Pipeline}
    {cfg : PipelineRunConfiguration}
    (h : apply_run_configuration p cfg = .ok p') :
    (∀ b, cfg.enable_cache = some b →
      ∀ nv ∈ p'.invocations, nv.2.step.configuration.enable_cache = some b) ∧
    (∀ b, cfg.enable_artifact_metadata = some b →
      ∀ nv ∈ p'.invocations,
        nv.2.step.configuration.enable_artifact_metadata = some b) ∧
    (∀ b, cfg.enable_artifact_visualization = some b →
      ∀ nv ∈ p'.invocations,
        nv.2.step.configuration.enable_artifact_visualization = some b) := by
  simp only [apply_run_configuration] at h
  split at h
  · exact absurd h (by simp)
  · next p1 hsteps =>
      cases h
      refine ⟨fun b hb => ?_, fun b hb => ?_, fun b hb => ?_⟩
      · rw [hb]
        rcases cfg.enable_artifact_metadata with _ | b' <;>
          rcases cfg.enable_artifact_visualization with _ | b''
        · exact mapStepConfigurations_pred p1
            (fun c => c.withEnableCache b)
            (fun c => c.enable_cache = some b) (fun c => rfl)
        · exact mapStepConfigurations_pred_preserve _
            (fun c => c.withEnableArtifactVisualization b'')
            (fun c => c.enable_cache = some b) (fun c hc => hc)
            (mapStepConfigurations_pred p1 (fun c => c.withEnableCache b)
              (fun c => c.enable_cache = some b) (fun c => rfl))
        · exact mapStepConfigurations_pred_preserve _
            (fun c => c.withEnableArtifactMetadata b')
            (fun c => c.enable_cache = some b) (fun c hc => hc)
            (mapStepConfigurations_pred p1 (fun c => c.withEnableCache b)
              (fun c => c.enable_cache = some b) (fun c => rfl))
        · exact mapStepConfigurations_pred_preserve _
            (fun c => c.withEnableArtifactVisualization b'')
            (fun c => c.enable_cache = some b) (fun c hc => hc)
            (mapStepConfigurations_pred_preserve _
              (fun c => c.withEnableArtifactMetadata b')
              (fun c => c.enable_cache = some b) (fun c hc => hc)
              (mapStepConfigurations_pred p1 (fun c => c.withEnableCache b)
                (fun c => c.enable_cache = some b) (fun c => rfl)))
      · rw [hb]
        rcases cfg.enable_cache with _ | b' <;>
          rcases cfg.enable_artifact_visualization with _ | b''
        · exact mapStepConfigurations_pred p1
            (fun c => c.withEnableArtifactMetadata b)
            (fun c => c.enable_artifact_metadata = some b) (fun c => rfl)
        · exact mapStepConfigurations_pred_preserve _
            (fun c => c.withEnableArtifactVisualization b'')
            (fun c => c.enable_artifact_metadata = some b) (fun c hc => hc)
            (mapStepConfigurations_pred p1
              (fun c => c.withEnableArtifactMetadata b)
              (fun c => c.enable_artifact_metadata = some b) (fun c => rfl))
        · exact mapStepConfigurations_pred _
            (fun c => c.withEnableArtifactMetadata b)
            (fun c => c.enable_artifact_metadata = some b) (fun c => rfl)
        · exact mapStepConfigurations_pred_preserve _
            (fun c => c.withEnableArtifactVisualization b'')
            (fun c => c.enable_artifact_metadata = some b) (fun c hc => hc)
            (mapStepConfigurations_pred _
              (fun c => c.withEnableArtifactMetadata b)
              (fun c => c.enable_artifact_metadata = some b) (fun c => rfl))
      · rw [hb]
        rcases cfg.enable_cache with _ | b' <;>
          rcases cfg.enable_artifact_metadata with _ | b''
        · exact mapStepConfigurations_pred _
            (fun c => c.withEnableArtifactVisualization b)
            (fun c => c.enable_artifact_visualization = some b) (fun c => rfl)
        · exact mapStepConfigurations_pred _
            (fun c => c.withEnableArtifactVisualization b)
            (fun c => c.enable_artifact_visualization = some b) (fun c => rfl)
        · exact mapStepConfigurations_pred _
            (fun c => c.withEnableArtifactVisualization b)
            (fun c => c.enable_artifact_visualization = some b) (fun c => rfl)
        · exact mapStepConfigurations_pred _
            (fun c => c.withEnableArtifactVisualization b)
            (fun c => c.enable_artifact_visualization = some b) (fun c => rfl)

theorem compile_step_invocation_flags {inv : StepInvocation}
    {pset : List (String × BaseSettings)} {pext : List (String × String)}
    {stack : Stack} {fh sh : Option Source} {st : Step}
    (h : compile_step_invocation inv pset pext stack fh sh = .ok st) :
    st.config.enable_cache = inv.step.configuration.enable_cache ∧
    st.config.enable_artifact_metadata
      = inv.step.configuration.enable_artifact_metadata ∧
    st.config.enable_artifact_visualization
      = inv.step.configuration.enable_artifact_visualization := by
  simp only [compile_step_invocation] at h
  split at h
  · exact absurd h (by simp)
  · cases h
    exact ⟨rfl, rfl, rfl⟩

theorem compileAllSteps_mem {stack : Stack}
    {pset : List (String × BaseSettings)} {pext : List (String × String)}
    {fh sh : Option Source} :
    ∀ {sorted : List (String × StepInvocation)} {steps : List (String × Step)},
      compileAllSteps stack pset pext fh sh sorted = .ok steps →
      ∀ ns ∈ steps, ∃ nv ∈ sorted,
        compile_step_invocation nv.2 pset pext stack fh sh = .ok ns.2 := by
  intro sorted
  induction sorted with
  | nil =>
      intro steps h ns hns
      cases h
      exact absurd hns (List.not_mem_nil ns)
  | cons nv rest ih =>
      intro steps h ns hns
      simp only [compileAllSteps] at h
      split at h
      · exact absurd h (by simp)
      · next st hst =>
          split at h
          · exact absurd h (by simp)
          · next steps' hsteps =>
              cases h
              rcases List.mem_cons.mp hns with h1 | h2
              · refine ⟨nv, List.mem_cons_self nv rest, ?_⟩
                rw [h1]
                exact hst
              · obtain ⟨mv, hmv, hcomp⟩ := ih hsteps ns h2
                exact ⟨mv, List.mem_cons_of_mem nv hmv, hcomp⟩

theorem get_sorted_invocations_mem {p : Pipeline}
    {sorted : List (String × StepInvocation)}
    (h : get_sorted_invocations p = .ok sorted) :
    ∀ x ∈ sorted, x ∈ p.invocations := by
  intro x hx
  simp only [get_sorted_invocations] at h
  split at h
  · exact absurd h (by simp)
  · split at h
    · exact absurd h (by simp)
    · cases h
      simp only [List.mem_filterMap] at hx
      obtain ⟨n, _, hfind⟩ := hx
      rcases hf : assocFind p.invocations n with _ | inv
      · rw [hf] at hfind; simp at hfind
      · rw [hf] at hfind
        simp only [Option.map_some'] at hfind
        have hx2 : (n, inv) = x := Option.some_injective _ hfind
        obtain ⟨kv, hkv, hk1, hk2⟩ := assocFind_some_mem hf
        have hxkv : x = kv := by
          rw [← hx2, ← hk1, ← hk2]
        rw [hxkv]
        exact hkv

/-- Claim C4: for every pipeline, stack and run configuration setting an
explicit value for `enable_cache`, `enable_artifact_metadata` or
`enable_artifact_visualization`, every compiled step of a successful
compilation carries the run-level value for that boolean, regardless of any
step-level or pipeline-level setting. -/
theorem c4_run_level_boolean_overrides (p : Pipeline) (stack : Stack)
    (cfg : PipelineRunConfiguration) (dep : PipelineDeployment)
    (spec : PipelineSpec) (hok : compile p stack cfg = .ok (dep, spec)) :
    (∀ b, cfg.enable_cache = some b →
      ∀ ns ∈ dep.step_configurations, ns.2.config.enable_cache = some b) ∧
    (∀ b, cfg.enable_artifact_metadata = some b →
      ∀ ns ∈ dep.step_configurations,
        ns.2.config.enable_artifact_metadata = some b) ∧
    (∀ b, cfg.enable_artifact_visualization = some b →
      ∀ ns ∈ dep.step_configurations,
        ns.2.config.enable_artifact_visualization = some b) := by
  simp only [compile] at hok
  split at hok
  · exact absurd hok (by simp)
  · next p1 happly =>
      simp only [compileStages, compileStagesSorted] at hok
      split at hok
      · exact absurd hok (by simp)
      · split at hok
        · exact absurd hok (by simp)
        · next ps hflt =>
            split at hok
            · exact absurd hok (by simp)
            · next sorted hsort =>
                split at hok
                · exact absurd hok (by simp)
                · next steps hsteps =>
                    split at hok
                    · exact absurd hok (by simp)
                    · cases hok
                      obtain ⟨hcache, hmeta, hviz⟩ :=
                        apply_run_configuration_forces_flags happly
                      refine ⟨fun b hb ns hns => ?_, fun b hb ns hns => ?_,
                        fun b hb ns hns => ?_⟩
                      · obtain ⟨nv, hnv, hcomp⟩ :=
                          compileAllSteps_mem hsteps ns hns
                        rw [(compile_step_invocation_flags hcomp).1]
                        exact hcache b hb nv
                          (get_sorted_invocations_mem hsort nv hnv)
                      · obtain ⟨nv, hnv, hcomp⟩ :=
                          compileAllSteps_mem hsteps ns hns
                        rw [(compile_step_invocation_flags hcomp).2.1]
                        exact hmeta b hb nv
                          (get_sorted_invocations_mem hsort nv hnv)
                      · obtain ⟨nv, hnv, hcomp⟩ :=
                          compileAllSteps_mem hsteps ns hns
                        rw [(compile_step_invocation_flags hcomp).2.2]
                        exact hviz b hb nv
                          (get_sorted_invocations_mem hsort nv hnv)

/-- A run configuration setting `enable_cache=False` globally. -/
def cacheOffRunConfiguration : PipelineRunConfiguration :=
  { emptyRunConfiguration with enable_cache := some false }

/-- Witness for claim C4: compiling the example pipeline (whose step `B`
itself sets `enable_cache=True`) under a run configuration with
`enable_cache=False` forces `False` onto every compiled step. -/
theorem c4_witness :
    cacheOffRunConfiguration.enable_cache = some false ∧
    exampleInvB.step.configuration.enable_cache = some true ∧
    ∃ dep spec, compile examplePipeline emptyStack cacheOffRunConfiguration
        = .ok (dep, spec) ∧
      ∀ ns ∈ dep.step_configurations, ns.2.config.enable_cache = some false := by
  refine ⟨rfl, rfl, _, _, rfl, ?_⟩
  exact (c4_run_level_boolean_overrides examplePipeline emptyStack
    cacheOffRunConfiguration _ _ rfl).1 false rfl

/-! ## Lemmas for settings filtering -/

theorem settingsResolverResolve_some {stack : Stack} {k : String}
    {s r : BaseSettings} (h : settingsResolverResolve stack k s = some r) :
    r = s ∧ k ∈ stack.resolvable_keys := by
  simp only [settingsResolverResolve] at h
  split at h
  · next hmem => cases h; exact ⟨rfl, hmem⟩
  · exact absurd h (by simp)

theorem settingsResolverResolve_of_not_mem {stack : Stack} {k : String}
    (s : BaseSettings) (h : k ∉ stack.resolvable_keys) :
    settingsResolverResolve stack k s = none := by
  simp only [settingsResolverResolve]
  exact if_neg h

theorem settingsResolverResolve_of_mem {stack : Stack} {k : String}
    (s : BaseSettings) (h : k ∈ stack.resolvable_keys) :
    settingsResolverResolve stack k s = some s := by
  simp only [settingsResolverResolve]
  exact if_pos h

/-- Claim C5: a settings entry whose key cannot be resolved against the stack
never fails compilation: filtering behaves exactly as if the unresolvable
entries were absent (they are dropped), and every entry of a successful
result has a resolvable key. -/
theorem c5_unresolvable_settings_dropped (stack : Stack)
    (lvl : ConfigurationLevel) (settings : List (String × BaseSettings)) :
    (filter_and_validate_settings settings lvl stack
      = filter_and_validate_settings
          (settings.filter (fun kv => decide (kv.1 ∈ stack.resolvable_keys)))
          lvl stack) ∧
    ∀ result, filter_and_validate_settings settings lvl stack = .ok result →
      ∀ kv ∈ result, kv.1 ∈ stack.resolvable_keys := by
  induction settings with
  | nil => exact ⟨rfl, fun result h kv hkv => by cases h; cases hkv⟩
  | cons ks rest ih =>
      obtain ⟨ks1, ks2⟩ := ks
      by_cases hmem : ks1 ∈ stack.resolvable_keys
      · constructor
        · simp only [filter_and_validate_settings, List.filter_cons,
            decide_eq_true hmem, settingsResolverResolve_of_mem ks2 hmem]
          rw [← ih.1]
        · intro result h kv hkv
          simp only [filter_and_validate_settings,
            settingsResolverResolve_of_mem ks2 hmem] at h
          split at h
          · split at h
            · exact absurd h (by simp)
            · next validated hrest =>
                cases h
                rcases List.mem_cons.mp hkv with h1 | h2
                · rw [h1]
                  exact hmem
                · exact ih.2 validated hrest kv h2
          · exact absurd h (by simp)
      · constructor
        · simp only [filter_and_validate_settings, List.filter_cons,
            settingsResolverResolve_of_not_mem ks2 hmem]
          rw [decide_eq_false hmem]
          exact ih.1
        · intro result h kv hkv
          simp only [filter_and_validate_settings,
            settingsResolverResolve_of_not_mem ks2 hmem] at h
          exact ih.2 result h kv hkv

/-- A settings object usable at both pipeline and step level. -/
def pipelineAndStepSettings : BaseSettings where
  LEVEL := [ConfigurationLevel.PIPELINE, ConfigurationLevel.STEP]
  fields := []

/-- A settings object declaring step-level applicability only. -/
def stepOnlySettings : BaseSettings where
  LEVEL := [ConfigurationLevel.STEP]
  fields := []

/-- Witness for claim C5: a settings entry under a key no stack component
resolves is dropped by filtering, which behaves as on the emptied mapping. -/
theorem c5_witness :
    filter_and_validate_settings [("mystery.settings", pipelineAndStepSettings)]
        ConfigurationLevel.PIPELINE emptyStack
      = filter_and_validate_settings
          ([("mystery.settings", pipelineAndStepSettings)].filter
            (fun kv => decide (kv.1 ∈ emptyStack.resolvable_keys)))
          ConfigurationLevel.PIPELINE emptyStack :=
  (c5_unresolvable_settings_dropped emptyStack ConfigurationLevel.PIPELINE
    [("mystery.settings", pipelineAndStepSettings)]).1

/-- Claim C10: in `_filter_and_validate_settings`, key resolution is attempted
before the configuration-level capability check: an entry with an
unresolvable key is dropped even when its settings object's capability set
excludes the supplied level, and the hard level-mismatch `TypeError` is only
ever raised for an entry whose key resolves successfully. -/
theorem c10_resolution_precedes_level_check (stack : Stack)
    (lvl : ConfigurationLevel) (key : String) (s : BaseSettings)
    (pre rest : List (String × BaseSettings))
    (hunres : key ∉ stack.resolvable_keys) (_hlevel : lvl ∉ s.LEVEL) :
    (filter_and_validate_settings (pre ++ (key, s) :: rest) lvl stack
      = filter_and_validate_settings (pre ++ rest) lvl stack) ∧
    ∀ (settings : List (String × BaseSettings)) (si : BaseSettings)
      (l : ConfigurationLevel),
      filter_and_validate_settings settings lvl stack
        = .error (.typeError si l) →
      ∃ k2, (k2, si) ∈ settings ∧ k2 ∈ stack.resolvable_keys ∧ l = lvl ∧
        lvl ∉ si.LEVEL := by
  constructor
  · induction pre with
    | nil =>
        simp only [List.nil_append, filter_and_validate_settings,
          settingsResolverResolve_of_not_mem s hunres]
    | cons qs pre' ih =>
        obtain ⟨q1, q2⟩ := qs
        simp only [List.cons_append, filter_and_validate_settings,
          List.append_eq]
        rcases hres : settingsResolverResolve stack q1 q2 with _ | r <;>
          simp only [hres]
        · exact ih
        · rw [ih]
  · intro settings
    induction settings with
    | nil =>
        intro si l h
        exact absurd h (by simp [filter_and_validate_settings])
    | cons ks rest' ih =>
        obtain ⟨k2, s2⟩ := ks
        intro si l h
        simp only [filter_and_validate_settings] at h
        rcases hres : settingsResolverResolve stack k2 s2 with _ | r <;>
          simp only [hres] at h
        · obtain ⟨k3, hmem, hres3, hl, hlvl⟩ := ih si l h
          exact ⟨k3, List.mem_cons_of_mem _ hmem, hres3, hl, hlvl⟩
        · obtain ⟨hr, hk2⟩ := settingsResolverResolve_some hres
          subst hr
          split at h
          · split at h
            · next e hrest =>
                have he : e = Err.typeError si l := Except.error.inj h
                subst he
                obtain ⟨k3, hmem, hres3, hl, hlvl⟩ := ih si l hrest
                exact ⟨k3, List.mem_cons_of_mem _ hmem, hres3, hl, hlvl⟩
            · exact absurd h (by simp)
          · next hnl =>
              obtain ⟨h1, h2⟩ := Err.typeError.inj (Except.error.inj h)
              subst h1
              subst h2
              exact ⟨k2, List.mem_cons_self _ _, hk2, rfl, hnl⟩

/-- Witness for claim C10: a step-only settings object supplied at pipeline
level under an unresolvable key is dropped, not rejected. -/
theorem c10_witness :
    ("mystery.settings" ∉ emptyStack.resolvable_keys) ∧
    (ConfigurationLevel.PIPELINE
      ∉ ({ LEVEL := [ConfigurationLevel.STEP], fields := [] } : BaseSettings).LEVEL) ∧
    filter_and_validate_settings
        [("mystery.settings", { LEVEL := [ConfigurationLevel.STEP], fields := [] })]
        ConfigurationLevel.PIPELINE emptyStack
      = filter_and_validate_settings [] ConfigurationLevel.PIPELINE emptyStack := by
  refine ⟨by decide, by decide, ?_⟩
  have h := (c10_resolution_precedes_level_check emptyStack
    ConfigurationLevel.PIPELINE "mystery.settings"
    { LEVEL := [ConfigurationLevel.STEP], fields := [] } [] []
    (by decide) (by decide)).1
  simpa using h

/-! ## Heap lemmas for the deep-copy isolation claim -/

theorem set_append_last {α : Type} :
    ∀ (h0 : List α) (a b : α), (h0 ++ [a]).set h0.length b = h0 ++ [b]
  | [], _, _ => rfl
  | x :: h0, a, b => congrArg (x :: ·) (set_append_last h0 a b)

theorem read_append_lt (h0 : Heap) (a : Pipeline) {r : Nat}
    (hr : r < h0.length) : Heap.read (h0 ++ [a]) r = Heap.read h0 r := by
  simp only [Heap.read, List.getD_eq_getElem?_getD]
  rw [List.getElem?_append_left hr]

theorem read_append_last (h0 : Heap) (a : Pipeline) :
    Heap.read (h0 ++ [a]) h0.length = a := by
  simp only [Heap.read, List.getD_eq_getElem?_getD]
  rw [List.getElem?_concat_length]
  rfl

theorem compileHeap_heap_shape (r : Nat) (stack : Stack)
    (cfg : PipelineRunConfiguration) (h : Heap) :
    ∃ z, (compileHeap r stack cfg h).2 = h ++ [z] := by
  simp only [compileHeap]
  split
  · exact ⟨_, rfl⟩
  · rw [set_append_last, set_append_last]
    split
    · exact ⟨_, rfl⟩
    · split
      · exact ⟨_, rfl⟩
      · rw [set_append_last]
        exact ⟨_, rfl⟩

theorem compileHeap_result (r : Nat) (stack : Stack)
    (cfg : PipelineRunConfiguration) (h : Heap) :
    (compileHeap r stack cfg h).1 = compile (Heap.read h r) stack cfg := by
  simp only [compileHeap, compile, compileStages, read_append_last,
    set_append_last]
  rcases happly : apply_run_configuration (Heap.read h r) cfg with e | p1 <;>
    simp only [happly]
  rcases hrn : runNameStage cfg with e | u0 <;> simp only [hrn]
  rcases hflt : filter_and_validate_settings
      (apply_stack_default_settings p1 stack).configuration.settings
      ConfigurationLevel.PIPELINE stack with e | ps <;> simp only [hflt]

/-- Claim C6: both entry points leave every pre-existing heap object — in
particular the caller's pipeline, with its invocations and their
configurations — unchanged, whether the call succeeds or fails: the deep
copy allocates a fresh cell and all mutation targets that cell.  The result
computed at heap level is exactly the pure compilation of the caller's
pipeline value. -/
theorem c6_caller_pipeline_unchanged (h : Heap) (r r2 : Nat) (stack : Stack)
    (cfg : PipelineRunConfiguration) (hr2 : r2 < h.length) :
    Heap.read (compileHeap r stack cfg h).2 r2 = Heap.read h r2 ∧
    Heap.read (compileSpecHeap r h).2 r2 = Heap.read h r2 ∧
    (compileHeap r stack cfg h).1 = compile (Heap.read h r) stack cfg ∧
    (compileSpecHeap r h).1 = compile_spec (Heap.read h r) := by
  refine ⟨?_, ?_, compileHeap_result r stack cfg h, ?_⟩
  · obtain ⟨z, hz⟩ := compileHeap_heap_shape r stack cfg h
    rw [hz]
    exact read_append_lt h z hr2
  · exact read_append_lt h (Heap.read h r) hr2
  · simp only [compileSpecHeap]
    rw [read_append_last]

/-- Witness for claim C6: a concrete one-cell heap holding the example
pipeline is unchanged at the caller's reference by both entry points. -/
theorem c6_witness :
    (0 : Nat) < ([examplePipeline] : Heap).length ∧
    Heap.read (compileHeap 0 emptyStack emptyRunConfiguration
      [examplePipeline]).2 0 = Heap.read [examplePipeline] 0 ∧
    Heap.read (compileSpecHeap 0 [examplePipeline]).2 0
      = Heap.read [examplePipeline] 0 := by
  have h := c6_caller_pipeline_unchanged [examplePipeline] 0 0 emptyStack
    emptyRunConfiguration (by decide)
  exact ⟨by decide, h.1, h.2.1⟩

/-- Claim C7: compilation is deterministic — two compilations of the same
pipeline, stack and run configuration (no intervening mutation; the
embedding's inputs are values) yield pipeline specs that are field-for-field
equal, step specs that are field-for-field equal position by position —
including the sorted upstream lists — and the same flattened step order.
The source is deterministic for fixed inputs: upstream sets are sorted
before entering specs and dictionaries iterate in insertion order. -/
theorem c7_compile_deterministic (p : Pipeline) (stack : Stack)
    (cfg : PipelineRunConfiguration) (d1 d2 : PipelineDeployment)
    (s1 s2 : PipelineSpec)
    (h1 : compile p stack cfg = .ok (d1, s1))
    (h2 : compile p stack cfg = .ok (d2, s2)) :
    s1.version = s2.version ∧ s1.source = s2.source ∧
    s1.parameters = s2.parameters ∧ s1.steps.length = s2.steps.length ∧
    (∀ i (hi1 : i < s1.steps.length) (hi2 : i < s2.steps.length),
      s1.steps[i].source = s2.steps[i].source ∧
      s1.steps[i].upstream_steps = s2.steps[i].upstream_steps ∧
      s1.steps[i].inputs = s2.steps[i].inputs ∧
      s1.steps[i].pipeline_parameter_name
        = s2.steps[i].pipeline_parameter_name) ∧
    d1.step_configurations.map (fun kv => kv.1)
      = d2.step_configurations.map (fun kv => kv.1) := by
  have hpair := Except.ok.inj (h1.symm.trans h2)
  have hd : d1 = d2 := congrArg Prod.fst hpair
  have hs : s1 = s2 := congrArg Prod.snd hpair
  subst hd
  subst hs
  exact ⟨rfl, rfl, rfl, rfl, fun i hi1 hi2 => ⟨rfl, rfl, rfl, rfl⟩, rfl⟩

/-- Witness for claim C7: the example pipeline compiles, and the determinism
theorem applies to two identical compilations of it. -/
theorem c7_witness :
    ∃ d s, compile examplePipeline emptyStack emptyRunConfiguration
        = .ok (d, s) ∧
      s.steps.length = s.steps.length ∧
      d.step_configurations.map (fun kv => kv.1)
        = d.step_configurations.map (fun kv => kv.1) := by
  refine ⟨_, _, rfl, ?_, ?_⟩
  · exact (c7_compile_deterministic examplePipeline emptyStack
      emptyRunConfiguration _ _ _ _ rfl rfl).2.2.2.1
  · exact (c7_compile_deterministic examplePipeline emptyStack
      emptyRunConfiguration _ _ _ _ rfl rfl).2.2.2.2.2

/-! ## Run-name validation (claim C8) -/

/-- Take characters up to the next closing brace; `none` when no closing
brace follows. -/
def takeUntilClose (acc : List Char) : List Char → Option (String × List Char)
  | [] => none
  | c :: rest =>
      if c = '}' then some (String.mk acc.reverse, rest)
      else takeUntilClose (c :: acc) rest

/-- Helper for `claimPlaceholderNames`: scan for brace-delimited names. -/
def claimNamesAux : Nat → List Char → List String
  | _, [] => []
  | 0, _ => []
  | fuel + 1, c :: rest =>
      if c = '{' then
        match takeUntilClose [] rest with
        | some (name, rest2) => name :: claimNamesAux fuel rest2
        | none => []
      else claimNamesAux fuel rest

/-- Following the claim's words: the placeholder names appearing in a run
name — the chunk after each opening brace that is closed by a brace. -/
def claimPlaceholderNames (s : String) : List String :=
  claimNamesAux (s.data.length + 1) s.data

/-- Counterexample to claim C8 as stated: the run name `{date}{` contains
only the placeholder `date`, which is allowed, yet run-name verification
fails — `string.Formatter().parse` raises on the dangling opening brace, so
validation rejects run names whose placeholders are all valid. -/
theorem c8_counterexample :
    claimPlaceholderNames "\x7bdate\x7d\x7b" = ["date"] ∧
    (∀ n ∈ claimPlaceholderNames "\x7bdate\x7d\x7b",
      n = "date" ∨ n = "time") ∧
    verify_run_name "\x7bdate\x7d\x7b"
      = .error (.valueError "\x7bdate\x7d\x7b") := by
  refine ⟨rfl, by decide, rfl⟩

/-- Claim C8 (amended): run-name verification passes exactly when the run
name parses as a format template and every placeholder name is `date` or
`time`; a verification failure on a supplied non-empty run name aborts
compilation with the `ValueError`; and when no run name is supplied no
validation occurs and the deployment's template is
`<pipeline-name>-\x7bdate\x7d-\x7btime\x7d`. -/
theorem c8_run_name_validation (p p1 : Pipeline) (stack : Stack)
    (cfg : PipelineRunConfiguration)
    (happly : apply_run_configuration p cfg = .ok p1) :
    (∀ n, get_default_run_name n = n ++ "-\x7bdate\x7d-\x7btime\x7d") ∧
    (∀ rn, verify_run_name rn = .ok () ↔
      ∃ names, formatFieldNames rn = .ok names ∧
        ∀ x ∈ names, ¬ x = "" → (x = "date" ∨ x = "time")) ∧
    (∀ rn, cfg.run_name = some rn → ¬ rn = "" →
      verify_run_name rn = .error (.valueError rn) →
      compile p stack cfg = .error (.valueError rn)) ∧
    (cfg.run_name = none →
      ∀ dep spec, compile p stack cfg = .ok (dep, spec) →
        dep.run_name_template = p.name ++ "-\x7bdate\x7d-\x7btime\x7d") := by
  refine ⟨fun n => rfl, fun rn => ?_, fun rn hrn hne hver => ?_, fun hnone dep spec hok => ?_⟩
  · rcases hfmt : formatFieldNames rn with e | names
    · constructor
      · intro h
        simp only [verify_run_name, hfmt] at h
        exact absurd h (by simp)
      · rintro ⟨names, hnames, _⟩
        exact absurd hnames (by simp)
    · constructor
      · intro h
        refine ⟨names, rfl, fun x hx hne => ?_⟩
        simp only [verify_run_name, hfmt] at h
        split at h
        · next hall =>
            have := List.all_eq_true.mp hall x
              (List.mem_filter.mpr ⟨hx, by simpa using hne⟩)
            exact of_decide_eq_true this
        · exact absurd h (by simp)
      · rintro ⟨names', hnames', hP⟩
        have hn : names = names' := Except.ok.inj hnames'
        subst hn
        simp only [verify_run_name, hfmt]
        rw [if_pos]
        refine List.all_eq_true.mpr (fun x hx => ?_)
        have hmem := List.mem_filter.mp hx
        exact decide_eq_true (hP x hmem.1 (by simpa using hmem.2))
  · have hstage : runNameStage cfg = .error (.valueError rn) := by
      simp only [runNameStage, hrn, if_neg hne, hver]
    simp only [compile, happly, compileStages, hstage]
  · simp only [compile, happly, compileStages, compileStagesSorted] at hok
    split at hok
    · exact absurd hok (by simp)
    · split at hok
      · exact absurd hok (by simp)
      · next ps hflt =>
          split at hok
          · exact absurd hok (by simp)
          · split at hok
            · exact absurd hok (by simp)
            · split at hok
              · exact absurd hok (by simp)
              · cases hok
                show chooseRunName cfg _ = p.name ++ "-\x7bdate\x7d-\x7btime\x7d"
                have hname : ((apply_stack_default_settings p1
                    stack).withSettings ps).name = p.name :=
                  (apply_run_configuration_preserves happly).2
                simp only [chooseRunName, hnone, get_default_run_name, hname]

/-- A run configuration supplying a run name with the invalid placeholder
`foo`. -/
def badRunNameConfiguration : PipelineRunConfiguration :=
  { emptyRunConfiguration with run_name := some "run-\x7bfoo\x7d" }

/-- Witness for claim C8: the invalid placeholder `foo` aborts compilation
with the `ValueError`, and the default run-name template has the documented
shape. -/
theorem c8_witness :
    verify_run_name "run-\x7bfoo\x7d"
      = .error (.valueError "run-\x7bfoo\x7d") ∧
    compile examplePipeline emptyStack badRunNameConfiguration
      = .error (.valueError "run-\x7bfoo\x7d") ∧
    get_default_run_name "example_pipeline"
      = "example_pipeline" ++ "-\x7bdate\x7d-\x7btime\x7d" := by
  have h := c8_run_name_validation examplePipeline _ emptyStack
    badRunNameConfiguration rfl
  refine ⟨rfl, ?_, ?_⟩
  · exact h.2.2.1 "run-\x7bfoo\x7d" rfl (by decide) rfl
  · exact h.1 "example_pipeline"

/-! ## Error typing (claim C9) -/

theorem layersLoop_error_is_cycle {dag : List (String × List String)} :
    ∀ {fuel : Nat} {emitted remaining : List String} {e : Err},
      layersLoop dag fuel emitted remaining = .error e →
      ∃ S, e = .cycleError S := by
  intro fuel
  induction fuel with
  | zero =>
      intro emitted remaining e h
      simp only [layersLoop] at h
      split at h
      · exact absurd h (by simp)
      · exact ⟨remaining, (Except.error.inj h).symm⟩
  | succ fuel ih =>
      intro emitted remaining e h
      simp only [layersLoop] at h
      split at h
      · split at h
        · exact absurd h (by simp)
        · exact ⟨remaining, (Except.error.inj h).symm⟩
      · split at h
        · next e' hrec =>
            obtain ⟨S, hS⟩ := ih hrec
            cases h
            exact ⟨S, hS⟩
        · exact absurd h (by simp)

theorem get_sorted_invocations_error_graph {p : Pipeline} {e : Err}
    (h : get_sorted_invocations p = .error e) :
    e.category = ErrCategory.graph := by
  simp only [get_sorted_invocations] at h
  split at h
  · next e' hbuild =>
      cases h
      obtain ⟨bad, hshape, _⟩ := buildDag_error_shape hbuild
      rw [hshape]
      rfl
  · split at h
    · next e' hlayers =>
        cases h
        obtain ⟨S, hS⟩ := layersLoop_error_is_cycle hlayers
        rw [hS]
        rfl
    · exact absurd h (by simp)

theorem applyStepUpdates_error_key :
    ∀ {updates : List (String × StepConfigurationUpdate)} {p : Pipeline}
      {e : Err}, applyStepUpdates p updates = .error e →
      ∃ name, e = .keyError name := by
  intro updates
  induction updates with
  | nil => intro p e h; exact absurd h (by simp [applyStepUpdates])
  | cons u rest ih =>
      intro p e h
      simp only [applyStepUpdates] at h
      split at h
      · exact ih h
      · exact ⟨u.1, (Except.error.inj h).symm⟩

theorem apply_run_configuration_error_key {p : Pipeline}
    {cfg : PipelineRunConfiguration} {e : Err}
    (h : apply_run_configuration p cfg = .error e) :
    ∃ name, e = .keyError name := by
  simp only [apply_run_configuration] at h
  split at h
  · next e' hsteps =>
      cases h
      exact applyStepUpdates_error_key hsteps
  · exact absurd h (by simp)

theorem verify_run_name_error_value {rn : String} {e : Err}
    (h : verify_run_name rn = .error e) : e = .valueError rn := by
  simp only [verify_run_name] at h
  split at h
  · exact (Except.error.inj h).symm
  · split at h
    · exact absurd h (by simp)
    · exact (Except.error.inj h).symm

theorem filter_and_validate_settings_error_type :
    ∀ {settings : List (String × BaseSettings)} {lvl : ConfigurationLevel}
      {stack : Stack} {e : Err},
      filter_and_validate_settings settings lvl stack = .error e →
      ∃ si l, e = .typeError si l := by
  intro settings
  induction settings with
  | nil =>
      intro lvl stack e h
      exact absurd h (by simp [filter_and_validate_settings])
  | cons ks rest ih =>
      intro lvl stack e h
      simp only [filter_and_validate_settings] at h
      split at h
      · exact ih h
      · split at h
        · split at h
          · next e' hrest =>
              cases h
              exact ih hrest
          · exact absurd h (by simp)
        · exact ⟨_, _, (Except.error.inj h).symm⟩

theorem ensure_required_error_stack {stack : Stack} :
    ∀ {steps : List (String × Step)} {e : Err},
      ensure_required_stack_components_exist stack steps = .error e →
      ∃ n req avail, e = .stackValidationError n req avail := by
  intro steps
  induction steps with
  | nil =>
      intro e h
      exact absurd h (by simp [ensure_required_stack_components_exist])
  | cons ns rest ih =>
      intro e h
      simp only [ensure_required_stack_components_exist] at h
      split at h
      · split at h
        · split at h
          · split at h
            · exact ih h
            · exact ⟨_, _, _, (Except.error.inj h).symm⟩
          · exact ih h
        · exact ⟨_, _, _, (Except.error.inj h).symm⟩
      · split at h
        · split at h
          · exact ih h
          · exact ⟨_, _, _, (Except.error.inj h).symm⟩
        · exact ih h

/-- Claim C9: every fatal error of compilation is a typed, distinguishable
failure: each raising site produces one specific error type, the types map
to the three taxonomy categories — graph, configuration-shape,
infrastructure — and the categories are pairwise distinct, so callers can
tell the classes apart. -/
theorem c9_typed_distinguishable_errors :
    (∀ (p : Pipeline) (e : Err), get_sorted_invocations p = .error e →
      e.category = ErrCategory.graph) ∧
    (∀ (inv : StepInvocation) (p : Pipeline) (e : Err),
      verify_upstream_steps inv p = .error e →
      e.category = ErrCategory.graph) ∧
    (∀ (p : Pipeline) (cfg : PipelineRunConfiguration) (e : Err),
      apply_run_configuration p cfg = .error e →
      e.category = ErrCategory.configurationShape) ∧
    (∀ (rn : String) (e : Err), verify_run_name rn = .error e →
      e.category = ErrCategory.configurationShape) ∧
    (∀ (settings : List (String × BaseSettings)) (lvl : ConfigurationLevel)
      (stack : Stack) (e : Err),
      filter_and_validate_settings settings lvl stack = .error e →
      e.category = ErrCategory.configurationShape) ∧
    (∀ (stack : Stack) (steps : List (String × Step)) (e : Err),
      ensure_required_stack_components_exist stack steps = .error e →
      e.category = ErrCategory.infrastructure) ∧
    (ErrCategory.graph ≠ ErrCategory.configurationShape ∧
      ErrCategory.graph ≠ ErrCategory.infrastructure ∧
      ErrCategory.configurationShape ≠ ErrCategory.infrastructure) := by
  refine ⟨fun p e h => get_sorted_invocations_error_graph h,
    fun inv p e h => ?_, fun p cfg e h => ?_, fun rn e h => ?_,
    fun settings lvl stack e h => ?_, fun stack steps e h => ?_,
    by decide, by decide, by decide⟩
  · obtain ⟨bad, hshape, _⟩ := verify_upstream_steps_error h
    rw [hshape]
    rfl
  · obtain ⟨name, hshape⟩ := apply_run_configuration_error_key h
    rw [hshape]
    rfl
  · rw [verify_run_name_error_value h]
    rfl
  · obtain ⟨si, l, hshape⟩ := filter_and_validate_settings_error_type h
    rw [hshape]
    rfl
  · obtain ⟨n, req, avail, hshape⟩ := ensure_required_error_stack h
    rw [hshape]
    rfl

/-- Witness for claim C9: a concrete graph error and a concrete
configuration error land in their respective categories. -/
theorem c9_witness :
    Err.category (Err.runtimeError ["missing"] ["A", "B"])
      = ErrCategory.graph := by
  exact c9_typed_distinguishable_errors.2.1
    { exampleInvB with upstream_steps := ["missing"], input_artifacts := [] }
    danglingPipeline _ rfl

end ZenML
